import Mathlib

/-!
Verification development for the AI-Thinking-Frameworks repository.

Shallow embedding of the core runtime (`src/frameworks/llm.js`,
`src/frameworks/tools.js`, `src/frameworks/rewoo.js`,
`src/frameworks/planExecute.js`, `src/utils/parser.js`).

External effects (HTTP fetch, tool network calls, the LLM itself, the clock,
abort signals) are modelled as oracle parameters; everything else is a direct
translation of the JavaScript.  JavaScript strings are modelled over their
character lists; whitespace is modelled as the ASCII whitespace characters
matched by the JS `\s` class.
-/

namespace S2P

/-- ASCII subset of the characters matched by the JavaScript `\s` regex class
(and trimmed by `String.prototype.trim`). -/
def jsIsSpace (c : Char) : Bool :=
  c = ' ' || c = '\t' || c = '\n' || c = '\r' || c = '\x0b' || c = '\x0c'

/-- Model of JavaScript `String.prototype.trim` on character lists. -/
def jsTrimL (cs : List Char) : List Char :=
  ((cs.dropWhile jsIsSpace).reverse.dropWhile jsIsSpace).reverse

/-- Model of JavaScript `String.prototype.trim`. -/
def jsTrim (s : String) : String :=
  String.mk (jsTrimL s.data)

/-- Model of JavaScript `String.prototype.toLowerCase` (ASCII). -/
def jsLower (s : String) : String :=
  String.mk (s.data.map Char.toLower)

/-- JavaScript word character (`\w` regex class): letters, digits, underscore. -/
def isWordChar (c : Char) : Bool :=
  c.isAlpha || c.isDigit || c = '_'

/-- Truthiness of a JS string-or-null value: `null` and `""` are falsy. -/
def optTruthy : Option String → Bool
  | none => false
  | some s => s ≠ ""

/-- JS `a || b` for a possibly-missing string `a` (empty string is falsy). -/
def jsOr (a : Option String) (b : String) : String :=
  match a with
  | some s => if s = "" then b else s
  | none => b

/-- Model of JavaScript `s.startsWith(pre)`. -/
def jsStartsWith (s pre : String) : Bool :=
  List.isPrefixOf pre.data s.data

/-! ## LLM client (`src/frameworks/llm.js`, `callLLM`) -/

/-- `RETRYABLE_STATUSES` from `llm.js`. -/
def retryable (s : Nat) : Bool :=
  s = 429 || s = 500 || s = 502 || s = 503 || s = 504

/-- `MAX_RETRIES` from `llm.js`. -/
def MAX_RETRIES : Nat := 3

/-- `BASE_DELAY_MS` from `llm.js`. -/
def BASE_DELAY_MS : Nat := 1000

/-- Backoff delay computed at the top of retry iteration `attempt` (≥ 1):
`BASE_DELAY_MS * Math.pow(2, attempt - 1)`. -/
def backoffDelay (attempt : Nat) : Nat :=
  BASE_DELAY_MS * 2 ^ (attempt - 1)

/-- Outcome of one `fetch('/api/chat', …)` request, as seen by `callLLM`.
`ok` models `response.ok` with the parsed body (`hasChoice` is whether
`data.choices?.[0]?.message` exists); `status` models a non-ok response
with its HTTP status and the provider message `err.error?.message` (if the
body parsed); `netErr` models a rejected fetch that is not an abort;
`fetchAbort` models a fetch rejected with an `AbortError`. -/
inductive FetchOutcome where
  | ok (content finishReason : String) (hasChoice : Bool)
  | status (code : Nat) (providerMsg : Option String)
  | netErr (msg : String)
  | fetchAbort
deriving Repr, DecidableEq

/-- The two reads of `signal.aborted` that `callLLM` performs in iteration
`attempt`: one at the top of the loop body, one after the backoff wait. -/
structure AbortOracle where
  beforeAttempt : Nat → Bool
  afterWait : Nat → Bool

/-- A signal that is never aborted. -/
def neverAborted : AbortOracle := ⟨fun _ => false, fun _ => false⟩

/-- Successful result of `callLLM` (`content`, `finishReason`). -/
structure LLMOk where
  content : String
  finishReason : String
deriving Repr, DecidableEq

/-- Terminal condition of a `callLLM` invocation: a returned value, a thrown
`Error` (its message), or a thrown `AbortError` DOMException. -/
inductive CallOutcome where
  | success (r : LLMOk)
  | failure (err : String)
  | abortError
deriving Repr, DecidableEq

/-- Observable trace of one `callLLM` invocation: terminal outcome, the
backoff waits entered (in order, scheduled durations), and the number of
`fetch` requests issued. -/
structure CallResult where
  outcome : CallOutcome
  delays : List Nat
  requests : Nat
deriving Repr, DecidableEq

/-- `LLM API error: ${status} (attempt ${attempt + 1}/${MAX_RETRIES + 1})`. -/
def retryErrMsg (code attempt : Nat) : String :=
  "LLM API error: " ++ toString code ++ " (attempt " ++ toString (attempt + 1) ++ "/4)"

/-- Message of the error thrown for a non-retryable status:
`err.error?.message || \x60LLM API error: ${response.status}\x60`. -/
def nonRetryableMsg (code : Nat) (providerMsg : Option String) : String :=
  jsOr providerMsg ("LLM API error: " ++ toString code)

/-- The retry loop of `callLLM` from iteration `attempt` on, with `fuel`
remaining iterations (`fuel = MAX_RETRIES + 1 - attempt` at entry) and the
current `lastError`.  `fetch` gives the outcome of the request issued in a
given iteration; `sig` gives the two abort-flag reads of each iteration. -/
def callLLMAux (fetch : Nat → FetchOutcome) (sig : AbortOracle) :
    Nat → Nat → Option String → CallResult
  | 0, _, lastError =>
      -- loop exhausted: `throw lastError`
      ⟨CallOutcome.failure (lastError.getD "undefined"), [], 0⟩
  | fuel + 1, attempt, _lastError =>
      if sig.beforeAttempt attempt then ⟨CallOutcome.abortError, [], 0⟩
      else
        let waited : List Nat := if attempt > 0 then [backoffDelay attempt] else []
        if attempt > 0 && sig.afterWait attempt then ⟨CallOutcome.abortError, waited, 0⟩
        else
          match fetch attempt with
          | FetchOutcome.fetchAbort => ⟨CallOutcome.abortError, waited, 1⟩
          | FetchOutcome.netErr msg =>
              if attempt < MAX_RETRIES then
                let r := callLLMAux fetch sig fuel (attempt + 1) (some msg)
                ⟨r.outcome, waited ++ r.delays, 1 + r.requests⟩
              else ⟨CallOutcome.failure msg, waited, 1⟩
          | FetchOutcome.ok content finishReason hasChoice =>
              if hasChoice then ⟨CallOutcome.success ⟨content, finishReason⟩, waited, 1⟩
              else ⟨CallOutcome.failure "No completion returned from API", waited, 1⟩
          | FetchOutcome.status code providerMsg =>
              if retryable code then
                let msg := retryErrMsg code attempt
                if attempt < MAX_RETRIES then
                  let r := callLLMAux fetch sig fuel (attempt + 1) (some msg)
                  ⟨r.outcome, waited ++ r.delays, 1 + r.requests⟩
                else ⟨CallOutcome.failure msg, waited, 1⟩
              else ⟨CallOutcome.failure (nonRetryableMsg code providerMsg), waited, 1⟩

/-- Model of `callLLM`: the retry loop starting at attempt 0. -/
def callLLM (fetch : Nat → FetchOutcome) (sig : AbortOracle) : CallResult :=
  callLLMAux fetch sig (MAX_RETRIES + 1) 0 none

/-! ## Output parsers (`src/utils/parser.js`)

Each JS parser is a regex; the models below implement the exact
backtracking semantics of the specific patterns, over character lists. -/

/-- Scan for the first occurrence of `Answer:` (regex `Answer:\s*([\s\S]*)`,
unanchored) and return everything after it. -/
def answerScan : List Char → Option (List Char)
  | [] => none
  | c :: rest =>
      if List.isPrefixOf "Answer:".data (c :: rest) then some ((c :: rest).drop 7)
      else answerScan rest

/-- Model of `parseReActAnswer`: `text.match(/Answer:\s*([\s\S]*)/)`,
returning `match[1].trim()`. -/
def parseReActAnswer (text : String) : Option String :=
  (answerScan text.data).map (fun cs => jsTrim (String.mk cs))

/-- Attempt the body of the `parseReActAction` regex right after a line-start
`Action:`: `\s*(\w+):\s*([\s\S]*?)(?=\nPAUSE|\n*$)`.  The lookahead makes the
lazy capture stop at the first newline or at end of input. -/
def tryActionAt (cs : List Char) : Option (String × String) :=
  let r1 := cs.dropWhile jsIsSpace
  let name := r1.takeWhile isWordChar
  if name.isEmpty then none
  else
    match r1.dropWhile isWordChar with
    | ':' :: r3 =>
        let r4 := r3.dropWhile jsIsSpace
        let input := r4.takeWhile (fun c => c ≠ '\n')
        some (String.mk name, jsTrim (String.mk input))
    | _ => none

/-- Scan of the multiline-anchored `^Action:` pattern: try each line start,
advancing one character at a time on failure, as the regex engine does. -/
def actionScan : List Char → Bool → Option (String × String)
  | [], _ => none
  | c :: rest, atStart =>
      (if atStart && List.isPrefixOf "Action:".data (c :: rest) then
        tryActionAt ((c :: rest).drop 7)
      else none).orElse (fun _ => actionScan rest (c = '\n'))

/-- Model of `parseReActAction`:
`text.match(/^Action:\s*(\w+):\s*([\s\S]*?)(?=\nPAUSE|\n*$)/m)`,
returning the trimmed `(actionName, actionInput)`. -/
def parseReActAction (text : String) : Option (String × String) :=
  actionScan text.data true

/-- `text.split('\n')` over character lists. -/
def splitNlL : List Char → List (List Char)
  | [] => [[]]
  | c :: rest =>
      if c = '\n' then [] :: splitNlL rest
      else
        match splitNlL rest with
        | [] => [[c]]
        | l :: ls => (c :: l) :: ls

/-- Model of JavaScript `text.split('\n')`. -/
def splitNl (s : String) : List String := (splitNlL s.data).map String.mk

/-- One line of `parsePlanSteps`'s numbered pass: `/^\s*\d+[.)]\s*(.+)/`
applied to a single (newline-free) line, returning `match[1].trim()`. -/
def numberedStep (line : String) : Option String :=
  let cs := line.data.dropWhile jsIsSpace
  let ds := cs.takeWhile Char.isDigit
  if ds.isEmpty then none
  else
    match cs.dropWhile Char.isDigit with
    | p :: rest =>
        if p = '.' || p = ')' then
          if rest.isEmpty then none
          else some (jsTrim (String.mk (rest.dropWhile jsIsSpace)))
        else none
    | [] => none

/-- One line of `parsePlanSteps`'s bullet pass: `/^\s*[-*]\s+(.+)/` applied to
a single line, returning `match[1].trim()`. -/
def bulletStep (line : String) : Option String :=
  let cs := line.data.dropWhile jsIsSpace
  match cs with
  | b :: rest =>
      if b = '-' || b = '*' then
        let m := (rest.takeWhile jsIsSpace).length
        if m = 0 then none
        else
          let w := rest.dropWhile jsIsSpace
          if ¬w.isEmpty then some (jsTrim (String.mk w))
          else if m ≥ 2 then some "" else none
      else none
  | [] => none

/-- Model of `parsePlanSteps`: numbered lines first, bullets as fallback,
empty list when neither matches. -/
def parsePlanSteps (text : String) : List String :=
  let lines := splitNl text
  let numbered := lines.filterMap numberedStep
  if ¬numbered.isEmpty then numbered else lines.filterMap bulletStep

/-! ### `extractAnswer` -/

/-- Whitespace other than the newline (which `.` cannot match). -/
def nonNlWs (c : Char) : Bool := jsIsSpace c && c ≠ '\n'

/-- Does `\s*$` (multiline `$`) match here: some whitespace prefix reaches end
of input or a newline. -/
def tailOk0 (cs : List Char) : Bool :=
  match cs.dropWhile nonNlWs with
  | [] => true
  | c :: _ => c = '\n'

/-- Does `\.?\s*$` (multiline `$`) match here. -/
def tail1Ok (cs : List Char) : Bool :=
  tailOk0 cs || (match cs with | '.' :: r => tailOk0 r | _ => false)

/-- Lazy capture `(.+?)` followed by `\.?\s*$` (multiline): the shortest
non-empty newline-free prefix after which the tail matches. -/
def lazyCaptureGo (acc : List Char) : List Char → Option (List Char)
  | [] => none
  | c :: rest =>
      if c = '\n' then none
      else if tail1Ok rest then some (acc ++ [c])
      else lazyCaptureGo (acc ++ [c]) rest

/-- Entry point for the lazy capture. -/
def lazyCapture (cs : List Char) : Option (List Char) :=
  lazyCaptureGo [] cs

/-- Greedy `\s{l}` (trying lengths `l, l-1, …, minLen`) followed by the lazy
capture and its tail. -/
def wsLazyTryLens (cs : List Char) (minLen : Nat) : Nat → Option (List Char)
  | 0 => if minLen = 0 then lazyCapture cs else none
  | l + 1 =>
      if l + 1 < minLen then none
      else (lazyCapture (cs.drop (l + 1))).orElse (fun _ => wsLazyTryLens cs minLen l)

/-- `\s*(.+?)\.?\s*$` when `minLen = 0`, `\s+(.+?)\.?\s*$` when `minLen = 1`,
with the greedy/lazy backtracking order of the regex engine. -/
def wsLazyTail (cs : List Char) (minLen : Nat) : Option (List Char) :=
  let m := (cs.takeWhile jsIsSpace).length
  if m < minLen then none else wsLazyTryLens cs minLen m

/-- Greedy `\s*` then greedy `(.+)` (capture runs to the first newline or end
of input), with backtracking into the whitespace run. -/
def wsGreedyTry (cs : List Char) : Nat → Option (List Char)
  | 0 =>
      match cs with
      | [] => none
      | c :: _ => if c = '\n' then none else some (cs.takeWhile (fun x => x ≠ '\n'))
  | l + 1 =>
      match cs.drop (l + 1) with
      | [] => wsGreedyTry cs l
      | c :: _ =>
          if c = '\n' then wsGreedyTry cs l
          else some ((cs.drop (l + 1)).takeWhile (fun x => x ≠ '\n'))

/-- `\s*(.+)` as used by the `####` pattern. -/
def wsGreedyRest (cs : List Char) : Option (List Char) :=
  wsGreedyTry cs (cs.takeWhile jsIsSpace).length

/-- Pattern 1 of `extractAnswer`: `/[Tt]he answer is\s+(.+?)\.?\s*$/m`,
leftmost occurrence, returning the raw capture. -/
def extract1 : List Char → Option (List Char)
  | [] => none
  | c :: rest =>
      (if (c = 'T' || c = 't') && List.isPrefixOf "he answer is".data rest then
        wsLazyTail (rest.drop 12) 1
      else none).orElse (fun _ => extract1 rest)

/-- Pattern 2 of `extractAnswer`: `/####\s*(.+)/`, leftmost occurrence. -/
def extract2 : List Char → Option (List Char)
  | [] => none
  | c :: rest =>
      (if List.isPrefixOf "####".data (c :: rest) then
        wsGreedyRest ((c :: rest).drop 4)
      else none).orElse (fun _ => extract2 rest)

/-- Case-insensitive literal prefix match (pattern given in lowercase),
returning the remainder on success. -/
def ciPrefix : List Char → List Char → Option (List Char)
  | [], cs => some cs
  | _ :: _, [] => none
  | p :: ps, c :: rest => if c.toLower = p then ciPrefix ps rest else none

/-- After the connective and `,?\s+` of pattern 3:
`(?:the answer is\s+)?(.+?)\.?\s*$` with the optional group preferred. -/
def match3Inner (cs2 : List Char) : Option (List Char) :=
  (match ciPrefix "the answer is".data cs2 with
   | some r => wsLazyTail r 1
   | none => none).orElse (fun _ => lazyCapture cs2)

/-- Greedy `\s{l}` (lengths `l, …, 1`) before `match3Inner`. -/
def match3Lens (cs1 : List Char) : Nat → Option (List Char)
  | 0 => none
  | l + 1 => (match3Inner (cs1.drop (l + 1))).orElse (fun _ => match3Lens cs1 l)

/-- `,?\s+(?:the answer is\s+)?(.+?)\.?\s*$` right after a matched
connective word. -/
def match3After (cs : List Char) : Option (List Char) :=
  let cs1 := match cs with | ',' :: r => r | r => r
  match3Lens cs1 (cs1.takeWhile jsIsSpace).length

/-- Pattern 3 of `extractAnswer`:
`/(?:therefore|thus|so|hence),?\s+(?:the answer is\s+)?(.+?)\.?\s*$/im`,
leftmost occurrence, alternatives tried in source order. -/
def extract3 : List Char → Option (List Char)
  | [] => none
  | c :: rest =>
      (match ciPrefix "therefore".data (c :: rest) with
       | some r => match3After r
       | none =>
         match ciPrefix "thus".data (c :: rest) with
         | some r => match3After r
         | none =>
           match ciPrefix "so".data (c :: rest) with
           | some r => match3After r
           | none =>
             match ciPrefix "hence".data (c :: rest) with
             | some r => match3After r
             | none => none).orElse (fun _ => extract3 rest)

/-- Pattern 4 of `extractAnswer` at one position:
`(?:final\s+)?answer:\s*(.+?)\.?\s*$` (case-insensitive). -/
def match4At (cs : List Char) : Option (List Char) :=
  (match ciPrefix "final".data cs with
   | some r =>
     if (r.takeWhile jsIsSpace).isEmpty then none
     else
       match ciPrefix "answer:".data (r.dropWhile jsIsSpace) with
       | some r2 => wsLazyTail r2 0
       | none => none
   | none => none).orElse (fun _ =>
     match ciPrefix "answer:".data cs with
     | some r2 => wsLazyTail r2 0
     | none => none)

/-- Pattern 4 of `extractAnswer`, leftmost occurrence. -/
def extract4 : List Char → Option (List Char)
  | [] => none
  | c :: rest => (match4At (c :: rest)).orElse (fun _ => extract4 rest)

/-- Does `/\.?\s*[Tt]he answer is\s+.*$/` (no multiline flag: `$` is end of
input) match at this position. -/
def matchesTail2 (cs : List Char) : Bool :=
  let cs1 := match cs with | '.' :: r => r | r => r
  match cs1.dropWhile jsIsSpace with
  | c :: rest =>
      if (c = 'T' || c = 't') && List.isPrefixOf "he answer is".data rest then
        match rest.drop 12 with
        | [] => false
        | c2 :: t => jsIsSpace c2 && ((c2 :: t).dropWhile jsIsSpace).all (fun x => x ≠ '\n')
      else false
  | [] => false

/-- Remove the leftmost match of the embedded `[Tt]he answer is …` suffix
(the match always extends to end of input). -/
def stripTail2 : List Char → List Char
  | [] => []
  | c :: rest => if matchesTail2 (c :: rest) then [] else c :: stripTail2 rest

/-- Remove a trailing run of periods (`/[.]+$/`). -/
def stripTrailingDots (cs : List Char) : List Char :=
  (cs.reverse.dropWhile (fun c => c = '.')).reverse

/-- The cleanup applied by `extractAnswer` to a non-empty extracted answer. -/
def cleanupAnswer (s : String) : String :=
  let s1 := jsTrim (String.mk (stripTail2 s.data))
  jsTrim (String.mk (stripTrailingDots s1.data))

/-- Model of `extractAnswer`: the four patterns in priority order (an empty
extraction is falsy and falls through), comma-stripping only in pattern 1,
then the cleanup, then `answer || null`. -/
def extractAnswer (text : String) : Option String :=
  if text = "" then none
  else
    let a1 : String :=
      match extract1 text.data with
      | some cap => jsTrim (String.mk (cap.filter (fun c => c ≠ ',')))
      | none => ""
    let a2 : String :=
      if a1 ≠ "" then a1 else
      match extract2 text.data with
      | some cap => jsTrim (String.mk cap)
      | none => ""
    let a3 : String :=
      if a2 ≠ "" then a2 else
      match extract3 text.data with
      | some cap => jsTrim (String.mk cap)
      | none => ""
    let a4 : String :=
      if a3 ≠ "" then a3 else
      match extract4 text.data with
      | some cap => jsTrim (String.mk cap)
      | none => ""
    if a4 = "" then none
    else
      let c := cleanupAnswer a4
      if c = "" then none else some c

/-! ## ReAct engine (`src/frameworks/llm.js`, `runReAct`)

The LLM is modelled as a script indexed by call number; tools as an oracle
from (name, input) to observation text. -/

/-- Role of a trajectory event. -/
inductive TrajRole where
  | assistant
  | observation
deriving Repr, DecidableEq

/-- One trajectory event: `{role, content, turn}`. -/
structure TrajEvent where
  role : TrajRole
  content : String
  turn : Nat
deriving Repr, DecidableEq

/-- Observable result of `runReAct` (usage and wall-clock time omitted). -/
structure ReActResult where
  answer : Option String
  error : Option String
  truncated : Bool
  trajectory : List TrajEvent
  turns : Nat
  llmCalls : Nat
deriving Repr, DecidableEq

/-- The `while (turn < maxTurns)` loop of `runReAct`, with `fuel` iterations
remaining and `turn` iterations already taken. -/
def runReActGo (script : Nat → String) (tools : String → String → String)
    (maxTurns : Nat) : Nat → Nat → List TrajEvent → ReActResult
  | 0, turn, traj =>
      let lastContent := ((traj.getLast?).map TrajEvent.content).getD ""
      let pa := parseReActAnswer lastContent
      { answer := if optTruthy pa then pa else none
        error := some ("Exceeded maximum turns (" ++ toString maxTurns ++
          "). The agent did not converge on a final answer.")
        truncated := true
        trajectory := traj
        turns := turn
        llmCalls := turn }
  | fuel + 1, turn, traj =>
      let response := script turn
      let turn1 := turn + 1
      let traj1 := traj ++ [⟨TrajRole.assistant, response, turn1⟩]
      let ans := parseReActAnswer response
      if optTruthy ans then
        { answer := ans, error := none, truncated := false, trajectory := traj1,
          turns := turn1, llmCalls := turn1 }
      else
        match parseReActAction response with
        | some (name, input) =>
            let obs := tools name input
            runReActGo script tools maxTurns fuel turn1
              (traj1 ++ [⟨TrajRole.observation, obs, turn1⟩])
        | none => runReActGo script tools maxTurns fuel turn1 traj1

/-- Model of `runReAct`. -/
def runReAct (script : Nat → String) (tools : String → String → String)
    (maxTurns : Nat) : ReActResult :=
  runReActGo script tools maxTurns maxTurns 0 []

/-! ## CoT answer aggregation (`src/frameworks/llm.js`)

JavaScript objects are modelled as insertion-ordered association lists;
`Object.keys`/`Object.entries` enumeration puts canonical array-index keys
first in ascending numeric order (`jsKeysOrder`). -/

/-- Does `/\.?\s*the answer is\b.*$/i` (no multiline flag) match at this
position: optional dot, whitespace, the literal (case-insensitive), a word
boundary, then a newline-free remainder reaching end of input. -/
def matchesNormTail (cs : List Char) : Bool :=
  let cs1 := match cs with | '.' :: r => r | r => r
  match ciPrefix "the answer is".data (cs1.dropWhile jsIsSpace) with
  | some rest =>
      (match rest with
       | [] => true
       | c :: _ => ¬isWordChar c) && rest.all (fun c => c ≠ '\n')
  | none => false

/-- Remove the leftmost match of `/\.?\s*the answer is\b.*$/gi` (the match
always extends to end of input, so at most one occurs). -/
def stripNormTail : List Char → List Char
  | [] => []
  | c :: rest => if matchesNormTail (c :: rest) then [] else c :: stripNormTail rest

/-- One alternative of `/^(the|a|an)\s+/i`: the word then at least one
whitespace character, consumed greedily. -/
def stripArticle1 (w : String) (cs : List Char) : Option (List Char) :=
  match ciPrefix w.data cs with
  | some (c :: rest) =>
      if jsIsSpace c then some ((c :: rest).dropWhile jsIsSpace) else none
  | _ => none

/-- `s.replace(/^(the|a|an)\s+/i, '')`, alternatives in source order. -/
def stripLeadingArticle (cs : List Char) : List Char :=
  ((stripArticle1 "the" cs).orElse (fun _ =>
    (stripArticle1 "a" cs).orElse (fun _ => stripArticle1 "an" cs))).getD cs

/-- The `[\s.,;:!?"'()]` character class of `basicNormalize`. -/
def isPunctTrim (c : Char) : Bool :=
  jsIsSpace c || c = '.' || c = ',' || c = ';' || c = ':' || c = '!' || c = '?' ||
    c = '"' || c = '\'' || c = '(' || c = ')'

/-- `s.replace(/^[\s.,;:!?"'()]+|[\s.,;:!?"'()]+$/g, '')`. -/
def trimPunct (cs : List Char) : List Char :=
  ((cs.dropWhile isPunctTrim).reverse.dropWhile isPunctTrim).reverse

/-- `s.replace(/\s+/g, ' ')` (fuel-based so it reduces in the kernel; the
fuel `cs.length` always suffices since every step consumes a character). -/
def collapseWsGo : Nat → List Char → List Char
  | _, [] => []
  | 0, cs => cs
  | fuel + 1, c :: rest =>
      if jsIsSpace c then ' ' :: collapseWsGo fuel (rest.dropWhile jsIsSpace)
      else c :: collapseWsGo fuel rest

/-- `s.replace(/\s+/g, ' ')`. -/
def collapseWs (cs : List Char) : List Char := collapseWsGo cs.length cs

/-- Model of `basicNormalize` from the CoT module. -/
def basicNormalize (raw : String) : String :=
  let s0 := (jsTrimL raw.data).map Char.toLower
  let s1 := stripNormTail s0
  let s2 := stripLeadingArticle s1
  let s3 := trimPunct s2
  let s4 := collapseWs s3
  String.mk (jsTrimL s4)

/-- Is position `i` preceded/followed-boundary a JS `\b` boundary. -/
def wordAt (cs : List Char) (i : Nat) : Bool :=
  match cs.get? i with
  | some c => isWordChar c
  | none => false

/-- JS `\b` at position `i` of `cs` (between characters `i-1` and `i`). -/
def boundaryAt (cs : List Char) (i : Nat) : Bool :=
  (if i = 0 then false else wordAt cs (i - 1)) != wordAt cs i

/-- `new RegExp((?:^|\b) + escaped shorter + (?:\b|$)).test(longer)`. -/
def substrWholeWord (shorter longer : List Char) : Bool :=
  (List.range (longer.length + 1)).any (fun i =>
    List.isPrefixOf shorter (longer.drop i) &&
    (i == 0 || boundaryAt longer i) &&
    (i + shorter.length == longer.length || boundaryAt longer (i + shorter.length)))

/-- Model of `areSimilar` from the CoT module. -/
def areSimilar (a b : String) : Bool :=
  if a = b then true
  else if a.length < 2 || b.length < 2 then false
  else
    let shorter := if a.length ≤ b.length then a else b
    let longer := if a.length ≤ b.length then b else a
    substrWholeWord shorter.data longer.data

/-! ### JS-object helpers -/

/-- `obj[k] = (obj[k] || 0) + 1` on an insertion-ordered association list. -/
def objIncr : List (String × Nat) → String → List (String × Nat)
  | [], k => [(k, 1)]
  | (k', c) :: rest, k =>
      if k' = k then (k', c + 1) :: rest else (k', c) :: objIncr rest k

/-- `obj[k] = (obj[k] || 0) + n`. -/
def objIncrBy : List (String × Nat) → String → Nat → List (String × Nat)
  | [], k, n => [(k, n)]
  | (k', c) :: rest, k, n =>
      if k' = k then (k', c + n) :: rest else (k', c) :: objIncrBy rest k n

/-- `obj[k] = n`. -/
def objSetNat : List (String × Nat) → String → Nat → List (String × Nat)
  | [], k, n => [(k, n)]
  | (k', c) :: rest, k, n =>
      if k' = k then (k', n) :: rest else (k', c) :: objSetNat rest k n

/-- `obj[k] = v` for string values. -/
def objSetStr : List (String × String) → String → String → List (String × String)
  | [], k, v => [(k, v)]
  | (k', v') :: rest, k, v =>
      if k' = k then (k', v) :: rest else (k', v') :: objSetStr rest k v

/-- `obj[k]` lookup. -/
def objLookup (l : List (String × α)) (k : String) : Option α :=
  (l.find? (fun kv => kv.1 == k)).map Prod.snd

/-- Numeric value of a digit string. -/
def digitsToNat (cs : List Char) : Nat :=
  cs.foldl (fun n c => n * 10 + (c.toNat - '0'.toNat)) 0

/-- Is the string a canonical array-index property key (`"0"`, `"1"`, …,
up to `2^32 - 2`), which JS object enumeration orders first. -/
def isCanonicalIndex (s : String) : Option Nat :=
  let cs := s.data
  if cs ≠ [] ∧ cs.all Char.isDigit ∧ (cs = ['0'] ∨ cs.head? ≠ some '0') then
    let n := digitsToNat cs
    if n < 4294967295 then some n else none
  else none

/-- Stable ascending insertion by array-index value. -/
def insAsc (x : String × α) : List (String × α) → List (String × α)
  | [] => [x]
  | y :: rest =>
      if (isCanonicalIndex y.1).getD 0 ≤ (isCanonicalIndex x.1).getD 0 then
        y :: insAsc x rest
      else x :: y :: rest

/-- JS own-property enumeration order: canonical array-index keys first in
ascending numeric order, then the remaining keys in insertion order. -/
def jsKeysOrder (l : List (String × α)) : List (String × α) :=
  let idx := l.filter (fun kv => (isCanonicalIndex kv.1).isSome)
  let rest := l.filter (fun kv => !(isCanonicalIndex kv.1).isSome)
  idx.foldl (fun acc x => insAsc x acc) [] ++ rest

/-! ### `smartMajorityVote` -/

/-- One group of `smartMajorityVote`: a total count and the per-original
sub-counts (`{count, originals}`). -/
structure VGroup where
  count : Nat
  originals : List (String × Nat)
deriving Repr, DecidableEq

/-- Add one `(key, original)` entry to the normalized groups
(`normGroups[key].count++; normGroups[key].originals[original]++`). -/
def addEntry : List (String × VGroup) → String → String → List (String × VGroup)
  | [], key, orig => [(key, ⟨1, [(orig, 1)]⟩)]
  | (k, g) :: rest, key, orig =>
      if k = key then (k, ⟨g.count + 1, objIncr g.originals orig⟩) :: rest
      else (k, g) :: addEntry rest key orig

/-- Group key: `normalized || original`. -/
def entryKey (e : String × String) : String := if e.2 = "" then e.1 else e.2

/-- Step 2 of `smartMajorityVote`: group the `(original, normalized)` entries
by normalized form. -/
def normGroupsOf (entries : List (String × String)) : List (String × VGroup) :=
  entries.foldl (fun gs e => addEntry gs (entryKey e) e.1) []

/-- Stable descending insertion by group count (JS stable
`sort((a, b) => count b - count a)`). -/
def insDescBy (key : α → Nat) (x : α) : List α → List α
  | [] => [x]
  | y :: rest => if key y ≥ key x then y :: insDescBy key x rest else x :: y :: rest

/-- `Object.keys(normGroups).sort((a, b) => …count desc…)`, paired with
their groups. -/
def sortedGroups (gs : List (String × VGroup)) : List (String × VGroup) :=
  (jsKeysOrder gs).foldl (fun acc x => insDescBy (fun kv => kv.2.count) x acc) []

/-- The first already-kept canonical similar to `key`, scanning
`Object.keys(merged)` in enumeration order. -/
def findCanon (cands : List (String × VGroup)) (key : String) : Option String :=
  (cands.find? (fun kv => areSimilar key kv.1)).map Prod.fst

/-- Merge `src.originals` into a destination originals object, iterating
`Object.entries(src)` in enumeration order. -/
def mergeOriginals (dst src : List (String × Nat)) : List (String × Nat) :=
  (jsKeysOrder src).foldl (fun acc kv => objIncrBy acc kv.1 kv.2) dst

/-- `merged[c].count += src.count` and fold `src.originals` in. -/
def objMergeGroup : List (String × VGroup) → String → VGroup → List (String × VGroup)
  | [], _, _ => []
  | (k, g) :: rest, c, src =>
      if k = c then (k, ⟨g.count + src.count, mergeOriginals g.originals src.originals⟩) :: rest
      else (k, g) :: objMergeGroup rest c src

/-- Process one sorted group in step 3 of `smartMajorityVote`. -/
def mergeInto (merged : List (String × VGroup)) (key : String) (g : VGroup) :
    List (String × VGroup) :=
  match findCanon (jsKeysOrder merged) key with
  | some c => objMergeGroup merged c g
  | none => merged ++ [(key, g)]

/-- Step 3 of `smartMajorityVote`: substring-similarity merge over the
count-sorted groups. -/
def mergeGroups (gs : List (String × VGroup)) : List (String × VGroup) :=
  (sortedGroups gs).foldl (fun m kv => mergeInto m kv.1 kv.2) []

/-- Vote result (`{answer, count, distribution}`; `canonUsed` records whether
the LLM canonicalization produced the groups, i.e. `extraUsage` non-null). -/
structure VoteOut where
  answer : Option String
  count : Nat
  distribution : List (String × Nat)
  canonUsed : Bool
deriving Repr, DecidableEq

/-- Most frequent original form of a group (`displayKey`), iterating
`Object.entries(group.originals)` in enumeration order, strict-greater
update. -/
def displayOf (originals : List (String × Nat)) : Option String :=
  ((jsKeysOrder originals).foldl
    (fun (st : Option String × Nat) kv => if kv.2 > st.2 then (some kv.1, kv.2) else st)
    (none, 0)).1

/-- Model of `buildVoteResult`. -/
def buildVoteResult (groups : List (String × VGroup)) (canonUsed : Bool) : VoteOut :=
  let st := (jsKeysOrder groups).foldl
    (fun (st : Option String × Nat × List (String × Nat)) kv =>
      let d := displayOf kv.2.originals
      let dist := objSetNat st.2.2 (d.getD "null") kv.2.count
      if kv.2.count > st.2.1 then (d, kv.2.count, dist) else (st.1, st.2.1, dist))
    (none, 0, [])
  { answer := st.1, count := st.2.1, distribution := st.2.2, canonUsed := canonUsed }

/-- First match of `/(\d+)\s*->\s*(.+)/` in a (newline-free) line of the
canonicalization reply: the digit group and the trailing capture. -/
def mapLineMatch : List Char → Option (String × String)
  | [] => none
  | c :: rest =>
      (if c.isDigit then
        let ds := (c :: rest).takeWhile Char.isDigit
        match ((c :: rest).dropWhile Char.isDigit).dropWhile jsIsSpace with
        | '-' :: '>' :: r2 =>
            match wsGreedyRest r2 with
            | some cap => some (String.mk ds, String.mk cap)
            | none => none
        | _ => none
      else none).orElse (fun _ => mapLineMatch rest)

/-- `[...new Set(xs)]`: deduplicate keeping first occurrences (fuel-based). -/
def dedupFirstGo : Nat → List String → List String
  | _, [] => []
  | 0, l => l
  | fuel + 1, x :: rest => x :: dedupFirstGo fuel (rest.filter (fun y => y ≠ x))

/-- `[...new Set(xs)]`: deduplicate keeping first occurrences. -/
def dedupFirst (l : List String) : List String := dedupFirstGo l.length l

/-- The `original → canonical` mapping built by `canonicalizeWithLLM` from the
model reply (per line; later lines overwrite; out-of-range indices skipped). -/
def canonMappingOf (uniqueAnswers : List String) (reply : String) :
    List (String × String) :=
  (splitNl reply).foldl
    (fun mapping line =>
      match mapLineMatch line.data with
      | some (ds, cap) =>
          let idx : Int := (digitsToNat ds.data : Int) - 1
          if 0 ≤ idx ∧ idx < uniqueAnswers.length then
            match uniqueAnswers.get? idx.toNat with
            | some orig => objSetStr mapping orig (jsLower (jsTrim cap))
            | none => mapping
          else mapping
      | none => mapping)
    []

/-- Rebuild the groups keyed by `mapping[original] || original`
(step 4 of `smartMajorityVote`). -/
def llmGroupsOf (entries : List (String × String))
    (mapping : List (String × String)) : List (String × VGroup) :=
  entries.foldl
    (fun gs e => addEntry gs (jsOr (objLookup mapping e.1) e.1) e.1)
    []

/-- Model of `smartMajorityVote`.  `apiKey` is the truthiness of the supplied
credential; `canonReply` is the canonicalization LLM reply when that call is
reached and succeeds (`none` models a thrown call, handled by the
`catch`). -/
def smartMajorityVote (answers : List (Option String)) (apiKey : Bool)
    (canonReply : Option String) : VoteOut :=
  let valid := answers.filterMap id
  if valid.isEmpty then ⟨none, 0, [], false⟩
  else
    let entries := valid.map (fun a => (jsLower (jsTrim a), basicNormalize a))
    let merged := mergeGroups (normGroupsOf entries)
    if merged.length > 1 ∧ apiKey then
      match canonReply with
      | some reply =>
          let uniq := dedupFirst (entries.map Prod.fst)
          buildVoteResult (llmGroupsOf entries (canonMappingOf uniq reply)) true
      | none => buildVoteResult merged false
    else buildVoteResult merged false

/-! ## CoT engine (`runCoT`), factual/open-ended branches

The sampling LLM is a script by sample index; the classifier result, the
synthesis reply and the canonicalization reply are oracles. -/

/-- Question classification outcome. -/
inductive QType where
  | factual
  | openEnded
deriving Repr, DecidableEq

/-- Observable result of `runCoT` (usage, llmCalls and time omitted). -/
structure CoTOut where
  questionType : QType
  paths : List String
  answers : List (Option String)
  finalAnswer : Option String
  confidence : Option ℚ
  extractionFailures : Nat
  voteCounts : List (String × Nat)
deriving Repr, DecidableEq

/-- The placeholder used when no path yielded an extractable answer. -/
def extractionFailedPlaceholder : String := "[Extraction failed — see reasoning paths]"

/-- Model of `runCoT`. -/
def runCoT (script : Nat → String) (nSamples : Nat) (classification : QType)
    (apiKey : Bool) (canonReply : Option String) (synthReply : String) : CoTOut :=
  let paths := (List.range nSamples).map script
  match classification with
  | QType.openEnded =>
      { questionType := QType.openEnded, paths, answers := paths.map (fun _ => none),
        finalAnswer := some synthReply, confidence := none, extractionFailures := 0,
        voteCounts := [] }
  | QType.factual =>
      let answers := paths.map extractAnswer
      let extractionFailures := (answers.filter (fun a => a.isNone)).length
      let vote := smartMajorityVote answers apiKey canonReply
      let validCount := (answers.filter (fun a => a.isSome)).length
      { questionType := QType.factual, paths, answers,
        finalAnswer := if validCount > 0 then vote.answer else some extractionFailedPlaceholder,
        confidence := some (if validCount > 0 then (vote.count : ℚ) / (nSamples : ℚ) else 0),
        extractionFailures,
        voteCounts := vote.distribution }

/-! ## Calculator (`src/frameworks/tools.js`, `calculate`)

`new Function('"use strict"; return (…)')()` evaluates the sanitized text as
a strict-mode JavaScript expression.  The model below interprets that
expression over exact rationals plus the IEEE special values `Infinity`,
`-Infinity` and `NaN`.  Deviations (all documented, none reachable from the
claims): float rounding/overflow is not modelled (rationals are exact),
negative zero is not modelled, irrational `**` results are modelled as `NaN`,
and thrown `SyntaxError` messages are modelled by the generic text
`"SyntaxError"` since the real message text is engine-specific. -/

/-- Structural Euclidean gcd (fuel-based, so it reduces in the kernel). -/
def sgcdAux : Nat → Nat → Nat → Nat
  | 0, _, b => b
  | fuel + 1, a, b => if a = 0 then b else sgcdAux fuel (b % a) a

/-- Greatest common divisor. -/
def sgcd (a b : Nat) : Nat := sgcdAux (a + 1) a b

/-- Digits of a natural number (fuel-based). -/
def natToDigitsAux : Nat → Nat → List Char
  | 0, _ => []
  | fuel + 1, n =>
      if n < 10 then [Char.ofNat (48 + n)]
      else natToDigitsAux fuel (n / 10) ++ [Char.ofNat (48 + n % 10)]

/-- Decimal string of a natural number. -/
def natToString (n : Nat) : String := String.mk (natToDigitsAux (n + 1) n)

/-- Decimal string of an integer (as JS prints integral numbers). -/
def intToString (i : Int) : String :=
  if i < 0 then "-" ++ natToString i.natAbs else natToString i.natAbs

/-- An exact rational with positive denominator, kept reduced by `Frac.norm`.
Used instead of Mathlib's `ℚ` so that every operation reduces in the
kernel. -/
structure Frac where
  num : Int
  den : Nat
deriving Repr, DecidableEq

/-- Normalize a numerator/denominator pair. -/
def Frac.norm (n : Int) (d : Nat) : Frac :=
  if d = 0 then ⟨0, 1⟩
  else
    let g := sgcd n.natAbs d
    if g = 0 then ⟨0, 1⟩ else ⟨Int.tdiv n g, d / g⟩

/-- Embed an integer. -/
def Frac.ofInt (n : Int) : Frac := ⟨n, 1⟩

instance : OfNat Frac 0 := ⟨Frac.ofInt 0⟩
instance : OfNat Frac 1 := ⟨Frac.ofInt 1⟩

/-- Addition. -/
def Frac.add (a b : Frac) : Frac :=
  Frac.norm (a.num * b.den + b.num * a.den) (a.den * b.den)

/-- Negation. -/
def Frac.neg (a : Frac) : Frac := ⟨-a.num, a.den⟩

/-- Subtraction. -/
def Frac.sub (a b : Frac) : Frac := a.add b.neg

/-- Multiplication. -/
def Frac.mul (a b : Frac) : Frac := Frac.norm (a.num * b.num) (a.den * b.den)

/-- Division (caller guards the zero divisor). -/
def Frac.div (a b : Frac) : Frac :=
  if b.num < 0 then Frac.norm (-(a.num * b.den)) (a.den * b.num.natAbs)
  else Frac.norm (a.num * b.den) (a.den * b.num.natAbs)

/-- Is the value zero. -/
def Frac.isZero (a : Frac) : Bool := a.num = 0

/-- Is the value positive. -/
def Frac.isPos (a : Frac) : Bool := 0 < a.num

/-- Strict order (denominators are positive). -/
def Frac.blt (a b : Frac) : Bool := a.num * b.den < b.num * a.den

/-- Truncation toward zero (as JS `Math.trunc` / the `%` algorithm). -/
def Frac.trunc (a : Frac) : Int := Int.tdiv a.num a.den

/-- Natural power. -/
def Frac.npow (a : Frac) : Nat → Frac
  | 0 => Frac.ofInt 1
  | n + 1 => (Frac.npow a n).mul a

/-- A JavaScript number: finite (exact rational), ±Infinity, or NaN. -/
inductive JsNum where
  | fin (q : Frac)
  | inf
  | ninf
  | nan
deriving Repr, DecidableEq

/-- JS unary minus. -/
def jsNeg : JsNum → JsNum
  | .fin a => .fin a.neg
  | .inf => .ninf
  | .ninf => .inf
  | .nan => .nan

/-- JS `+`. -/
def jsAdd : JsNum → JsNum → JsNum
  | .nan, _ => .nan
  | _, .nan => .nan
  | .fin a, .fin b => .fin (a.add b)
  | .inf, .ninf => .nan
  | .ninf, .inf => .nan
  | .inf, _ => .inf
  | _, .inf => .inf
  | .ninf, _ => .ninf
  | _, .ninf => .ninf

/-- JS `-`. -/
def jsSub (a b : JsNum) : JsNum := jsAdd a (jsNeg b)

/-- JS `*`. -/
def jsMul : JsNum → JsNum → JsNum
  | .nan, _ => .nan
  | _, .nan => .nan
  | .fin a, .fin b => .fin (a.mul b)
  | .inf, .fin b => if b.isZero then .nan else if b.isPos then .inf else .ninf
  | .fin a, .inf => if a.isZero then .nan else if a.isPos then .inf else .ninf
  | .ninf, .fin b => if b.isZero then .nan else if b.isPos then .ninf else .inf
  | .fin a, .ninf => if a.isZero then .nan else if a.isPos then .ninf else .inf
  | .inf, .inf => .inf
  | .inf, .ninf => .ninf
  | .ninf, .inf => .ninf
  | .ninf, .ninf => .inf

/-- JS `/`. -/
def jsDiv : JsNum → JsNum → JsNum
  | .nan, _ => .nan
  | _, .nan => .nan
  | .fin a, .fin b =>
      if b.isZero then (if a.isZero then .nan else if a.isPos then .inf else .ninf)
      else .fin (a.div b)
  | .inf, .fin b => if 0 ≤ b.num then .inf else .ninf
  | .ninf, .fin b => if 0 ≤ b.num then .ninf else .inf
  | .fin _, .inf => .fin 0
  | .fin _, .ninf => .fin 0
  | .inf, .inf => .nan
  | .inf, .ninf => .nan
  | .ninf, .inf => .nan
  | .ninf, .ninf => .nan

/-- JS `%` (remainder, sign of the dividend). -/
def jsMod : JsNum → JsNum → JsNum
  | .nan, _ => .nan
  | _, .nan => .nan
  | .fin a, .fin b =>
      if b.isZero then .nan
      else .fin (a.sub (b.mul (Frac.ofInt (a.div b).trunc)))
  | .inf, _ => .nan
  | .ninf, _ => .nan
  | .fin a, .inf => .fin a
  | .fin a, .ninf => .fin a

/-- JS `**` (`Math.pow` semantics on the modelled value space; irrational
results, which floats would round, are modelled as `NaN` — not reachable
from any claim). -/
def jsPow : JsNum → JsNum → JsNum
  | b, .fin e =>
      if e.isZero then .fin 1
      else
        match b with
        | .nan => .nan
        | .inf => if e.isPos then .inf else .fin 0
        | .ninf =>
            if e.isPos then
              (if e.den = 1 ∧ e.num % 2 ≠ 0 then .ninf else .inf)
            else .fin 0
        | .fin a =>
            if e.den = 1 then
              (if 0 < e.num then .fin (a.npow e.num.toNat)
               else if a.isZero then .inf
               else .fin ((Frac.ofInt 1).div (a.npow e.num.natAbs)))
            else
              if a.isZero then (if e.isPos then .fin 0 else .inf)
              else if a = Frac.ofInt 1 then .fin 1
              else .nan
  | b, .inf =>
      (match b with
       | .nan => .nan
       | .fin a =>
          if a = Frac.ofInt 1 ∨ a = Frac.ofInt (-1) then .nan
          else if (Frac.ofInt (-1)).blt a ∧ a.blt (Frac.ofInt 1) then .fin 0
          else .inf
       | _ => .inf)
  | b, .ninf =>
      (match b with
       | .nan => .nan
       | .fin a =>
          if a = Frac.ofInt 1 ∨ a = Frac.ofInt (-1) then .nan
          else if (Frac.ofInt (-1)).blt a ∧ a.blt (Frac.ofInt 1) then .inf
          else .fin 0
       | _ => .fin 0)
  | _, .nan => .nan

/-- Tokens of the sanitized arithmetic expression, with JS maximal-munch
lexing of `**`, `++` and `--`. -/
inductive Tok where
  | num (q : Frac)
  | plus
  | minus
  | star
  | slash
  | percent
  | lparen
  | rparen
  | starstar
  | plusplus
  | minusminus
  | dot
deriving Repr, DecidableEq

/-- Value of `ds . fs` as an exact rational. -/
def ratOfDigits (ds fs : List Char) : Frac :=
  Frac.norm (digitsToNat ds * 10 ^ fs.length + digitsToNat fs) (10 ^ fs.length)

/-- Lexer over the sanitized character set (digits, `+-*/().%`, whitespace).
Strict mode rejects a leading-zero integer literal such as `01` or `08`. -/
def lexGo : Nat → List Char → Except String (List Tok)
  | _, [] => Except.ok []
  | 0, _ => Except.error "SyntaxError"
  | fuel + 1, c :: rest =>
      if jsIsSpace c then lexGo fuel rest
      else if c.isDigit then
        let ds := (c :: rest).takeWhile Char.isDigit
        if ds.length > 1 ∧ c = '0' then Except.error "SyntaxError"
        else
          match (c :: rest).dropWhile Char.isDigit with
          | '.' :: r2 =>
              let fs := r2.takeWhile Char.isDigit
              (lexGo fuel (r2.dropWhile Char.isDigit)).map (Tok.num (ratOfDigits ds fs) :: ·)
          | r1 => (lexGo fuel r1).map (Tok.num (ratOfDigits ds []) :: ·)
      else
        match c, rest with
        | '*', '*' :: r => (lexGo fuel r).map (Tok.starstar :: ·)
        | '+', '+' :: r => (lexGo fuel r).map (Tok.plusplus :: ·)
        | '-', '-' :: r => (lexGo fuel r).map (Tok.minusminus :: ·)
        | '.', d :: _ =>
            if d.isDigit then
              let fs := rest.takeWhile Char.isDigit
              (lexGo fuel (rest.dropWhile Char.isDigit)).map (Tok.num (ratOfDigits [] fs) :: ·)
            else (lexGo fuel rest).map (Tok.dot :: ·)
        | '+', _ => (lexGo fuel rest).map (Tok.plus :: ·)
        | '-', _ => (lexGo fuel rest).map (Tok.minus :: ·)
        | '*', _ => (lexGo fuel rest).map (Tok.star :: ·)
        | '/', _ => (lexGo fuel rest).map (Tok.slash :: ·)
        | '%', _ => (lexGo fuel rest).map (Tok.percent :: ·)
        | '(', _ => (lexGo fuel rest).map (Tok.lparen :: ·)
        | ')', _ => (lexGo fuel rest).map (Tok.rparen :: ·)
        | '.', [] => (lexGo fuel rest).map (Tok.dot :: ·)
        | _, _ => Except.error "SyntaxError"

mutual

/-- `AdditiveExpression`. -/
def parseAddE : Nat → List Tok → Except String (JsNum × List Tok)
  | 0, _ => Except.error "SyntaxError"
  | fuel + 1, ts => do
      let (a, ts1) ← parseMulE fuel ts
      parseAddLoop fuel a ts1

/-- Left-associated additive tail. -/
def parseAddLoop : Nat → JsNum → List Tok → Except String (JsNum × List Tok)
  | 0, _, _ => Except.error "SyntaxError"
  | fuel + 1, a, ts =>
      match ts with
      | Tok.plus :: r => do
          let (b, ts1) ← parseMulE fuel r
          parseAddLoop fuel (jsAdd a b) ts1
      | Tok.minus :: r => do
          let (b, ts1) ← parseMulE fuel r
          parseAddLoop fuel (jsSub a b) ts1
      | _ => Except.ok (a, ts)

/-- `MultiplicativeExpression`. -/
def parseMulE : Nat → List Tok → Except String (JsNum × List Tok)
  | 0, _ => Except.error "SyntaxError"
  | fuel + 1, ts => do
      let (a, ts1) ← parseExpoE fuel ts
      parseMulLoop fuel a ts1

/-- Left-associated multiplicative tail. -/
def parseMulLoop : Nat → JsNum → List Tok → Except String (JsNum × List Tok)
  | 0, _, _ => Except.error "SyntaxError"
  | fuel + 1, a, ts =>
      match ts with
      | Tok.star :: r => do
          let (b, ts1) ← parseExpoE fuel r
          parseMulLoop fuel (jsMul a b) ts1
      | Tok.slash :: r => do
          let (b, ts1) ← parseExpoE fuel r
          parseMulLoop fuel (jsDiv a b) ts1
      | Tok.percent :: r => do
          let (b, ts1) ← parseExpoE fuel r
          parseMulLoop fuel (jsMod a b) ts1
      | _ => Except.ok (a, ts)

/-- `ExponentiationExpression`: a sign starts a `UnaryExpression`, which may
not be the left operand of `**`. -/
def parseExpoE : Nat → List Tok → Except String (JsNum × List Tok)
  | 0, _ => Except.error "SyntaxError"
  | fuel + 1, ts =>
      match ts with
      | Tok.plus :: _ => parseUnaryE fuel ts
      | Tok.minus :: _ => parseUnaryE fuel ts
      | _ => do
          let (a, ts1) ← parsePrimaryE fuel ts
          match ts1 with
          | Tok.starstar :: r => do
              let (b, ts2) ← parseExpoE fuel r
              Except.ok (jsPow a b, ts2)
          | _ => Except.ok (a, ts1)

/-- `UnaryExpression`: sign chains over a primary. -/
def parseUnaryE : Nat → List Tok → Except String (JsNum × List Tok)
  | 0, _ => Except.error "SyntaxError"
  | fuel + 1, ts =>
      match ts with
      | Tok.plus :: r => parseUnaryE fuel r
      | Tok.minus :: r => (parseUnaryE fuel r).map (fun vt => (jsNeg vt.1, vt.2))
      | _ => parsePrimaryE fuel ts

/-- `PrimaryExpression`: a literal or a parenthesized expression. -/
def parsePrimaryE : Nat → List Tok → Except String (JsNum × List Tok)
  | 0, _ => Except.error "SyntaxError"
  | fuel + 1, ts =>
      match ts with
      | Tok.num q :: r => Except.ok (JsNum.fin q, r)
      | Tok.lparen :: r => do
          let (v, ts1) ← parseAddE fuel r
          match ts1 with
          | Tok.rparen :: r2 => Except.ok (v, r2)
          | _ => Except.error "SyntaxError"
      | _ => Except.error "SyntaxError"

end

/-- Evaluate the sanitized expression text as strict-mode JS arithmetic. -/
def evalArith (s : String) : Except String JsNum := do
  let ts ← lexGo (s.data.length + 1) s.data
  let (v, rest) ← parseAddE (4 * ts.length + 8) ts
  if rest.isEmpty then Except.ok v else Except.error "SyntaxError"

/-- Least power of ten clearing the denominator (within float-relevant
range), if any. -/
def decExp (q : Frac) : Option Nat :=
  (List.range 31).find? (fun k => 10 ^ k % q.den = 0)

/-- `String(x)` for a finite JS number whose decimal expansion terminates;
non-terminating expansions are outside the modelled subset. -/
def jsRatToString (q : Frac) : String :=
  if q.den = 1 then intToString q.num
  else
    match decExp q with
    | some k =>
        let n := Int.tdiv (q.num * 10 ^ k) q.den
        let sign := if n < 0 then "-" else ""
        let ds := natToDigitsAux (n.natAbs + 1) n.natAbs
        let padded :=
          if ds.length ≤ k then List.replicate (k + 1 - ds.length) '0' ++ ds
          else ds
        sign ++ String.mk (padded.take (padded.length - k)) ++ "." ++
          String.mk (padded.drop (padded.length - k))
    | none => "~" ++ intToString q.num ++ "/" ++ natToString q.den

/-- `String(x)` for a JS number. -/
def jsNumToString : JsNum → String
  | .nan => "NaN"
  | .inf => "Infinity"
  | .ninf => "-Infinity"
  | .fin q => jsRatToString q

/-- The character class kept by `expression.replace(/[^0-9+\-*\/().%\s]/g, '')`. -/
def allowedCalcChar (c : Char) : Bool :=
  c.isDigit || c = '+' || c = '-' || c = '*' || c = '/' || c = '(' || c = ')' ||
    c = '.' || c = '%' || jsIsSpace c

/-- The rejection message of `calculate`. -/
def calcSanitizeError : String :=
  "Error: expression contains disallowed characters. Only numbers and +-*/().% are allowed."

/-- Model of `calculate` from `tools.js`. -/
def calculate (expression : String) : String :=
  let sanitized := String.mk (expression.data.filter allowedCalcChar)
  if sanitized ≠ jsTrim expression then calcSanitizeError
  else
    match evalArith sanitized with
    | Except.ok v => jsNumToString v
    | Except.error m => "Calculation error: " ++ m

/-! ## Tool registry and dispatch (`src/frameworks/tools.js`)

Network behavior is an oracle (`ToolWorld`).  `Except.error` models a
rejected promise (a thrown error observable by the caller of
`executeTool`). -/

/-- The network world one tool invocation sees: the Wikipedia search fetch
(list of `(title, snippet)` hits, or a rejection), the Wikipedia summary
fetch (`extract` if present, or a rejection), the OpenAI web-search outcome
(`some content` on success; `none` models any failure, which the source
catches and turns into a Wikipedia fallback), and the clock text. -/
structure ToolWorld where
  wikiSearch : Except String (List (String × String))
  wikiSummary : Except String (Option String)
  webSearch : Option String
  clock : String

/-- `snippet.replace(/<[^>]*>/g, '')`. -/
def stripTagsGo : Nat → List Char → List Char
  | _, [] => []
  | 0, cs => cs
  | fuel + 1, c :: rest =>
      if c = '<' then
        match rest.dropWhile (fun x => x ≠ '>') with
        | '>' :: r2 => stripTagsGo fuel r2
        | _ => c :: stripTagsGo fuel rest
      else c :: stripTagsGo fuel rest

/-- Strip HTML tags from a snippet. -/
def stripTags (s : String) : String :=
  String.mk (stripTagsGo s.data.length s.data)

/-- `xs.join(sep)`. -/
def joinSepStr (sep : String) : List String → String
  | [] => ""
  | [x] => x
  | x :: rest => x ++ sep ++ joinSepStr sep rest

/-- Model of the `wikipedia` tool.  The first fetch and its `.json()` are not
guarded by any `try`, so their rejection propagates (`Except.error`); the
summary fetch is inside `try … catch`, so its rejection falls back to the
snippets. -/
def wikipedia (w : ToolWorld) : Except String String :=
  match w.wikiSearch with
  | Except.error m => Except.error m
  | Except.ok [] => Except.ok "No Wikipedia results found."
  | Except.ok (hit :: more) =>
      let snippets := joinSepStr "\n\n" ((hit :: more).map (fun r => stripTags r.2))
      match w.wikiSummary with
      | Except.ok (some extract) =>
          if extract.length > 20 then
            Except.ok ("Summary of \"" ++ hit.1 ++ "\":\n" ++ extract.take 800 ++
              "\n\n---\nSearch snippets:\n" ++ snippets)
          else Except.ok snippets
      | _ => Except.ok snippets

/-- Model of `openaiWebSearch`: missing credential, a failed call, or an
empty content all fall back to `wikipedia` (whose own failure still
propagates). -/
def openaiWebSearch (w : ToolWorld) (apiKey : Bool) : Except String String :=
  if ¬apiKey then wikipedia w
  else
    match w.webSearch with
    | some content => if content = "" then wikipedia w else Except.ok content
    | none => wikipedia w

/-- Model of `executeTool`: case-insensitive dispatch over the registry. -/
def executeTool (w : ToolWorld) (apiKey : Bool) (name input : String) :
    Except String String :=
  let n := jsLower name
  if n = "wikipedia" then wikipedia w
  else if n = "search" ∨ n = "websearch" then openaiWebSearch w apiKey
  else if n = "calculate" then Except.ok (calculate input)
  else if n = "current_datetime" ∨ n = "datetime" then Except.ok w.clock
  else
    Except.ok ("Error: Unknown tool \"" ++ name ++
      "\". Available tools: wikipedia, search, websearch, calculate, current_datetime, datetime")

/-! ## ReWOO worker phase (`src/frameworks/rewoo.js`)

Tools and the `LLM` pseudo-tool are oracles mapping to settled string
results (runs in which a tool call rejects are outside this model and
covered by the `executeTool` analysis). -/

/-- A parsed ReWOO plan step (`{description, variable, tool, toolInput}`).
The `variable` field is named `varName` because `variable` is reserved in
Lean. -/
structure PlanStep where
  description : String
  varName : String
  tool : String
  toolInput : String
deriving Repr, DecidableEq

/-- `String.prototype.replaceAll` with a non-empty literal pattern
(non-overlapping, left to right).  An empty pattern does not occur for
`#E<n>` variable names and is modelled as the identity. -/
def replaceAllGo (pat rep : List Char) : Nat → List Char → List Char
  | _, [] => []
  | 0, s => s
  | fuel + 1, c :: rest =>
      if ¬pat.isEmpty ∧ List.isPrefixOf pat (c :: rest) then
        rep ++ replaceAllGo pat rep fuel ((c :: rest).drop pat.length)
      else c :: replaceAllGo pat rep fuel rest

/-- `s.replaceAll(pat, rep)`. -/
def replaceAllStr (s pat rep : String) : String :=
  String.mk (replaceAllGo pat.data rep.data s.data.length s.data)

/-- Substitute every already-resolved evidence variable into a tool input,
iterating `Object.entries(evidence)` in enumeration order. -/
def substInput (ev : List (String × String)) (input : String) : String :=
  (jsKeysOrder ev).foldl (fun acc kv => replaceAllStr acc kv.1 kv.2) input

/-- The value stored in the evidence map for one step: the `LLM` pseudo-tool
result verbatim; otherwise the tool result, wrapped as `[FAILED: …]` exactly
when it starts with `Error:`. -/
def stepStore (tools : String → String → String) (llm : String → String)
    (s : PlanStep) (input : String) : String :=
  if jsLower s.tool = "llm" then llm input
  else
    let r := tools s.tool input
    if jsStartsWith r "Error:" then "[FAILED: " ++ r ++ "]" else r

/-- The worker loop of `runReWOO`, threading the evidence object. -/
def runReWOOWorker (tools : String → String → String) (llm : String → String) :
    List PlanStep → List (String × String) → List (String × String)
  | [], ev => ev
  | s :: rest, ev =>
      let input := substInput ev s.toolInput
      runReWOOWorker tools llm rest (objSetStr ev s.varName (stepStore tools llm s input))

/-- Evidence map produced by the worker phase for a parsed plan. -/
def runReWOOEvidence (tools : String → String → String) (llm : String → String)
    (steps : List PlanStep) : List (String × String) :=
  runReWOOWorker tools llm steps []

/-! ## Plan-Execute engine (`src/frameworks/planExecute.js`) -/

/-- The step result recorded when the executor sub-loop exhausts its 8
turns. -/
def stepErrorMark : String := "[Error: Step execution exceeded max turns.]"

/-- The fixed error of a run that produced no answer. -/
def peNoAnswerError : String :=
  "Plan-Execute did not produce a final answer within the allowed steps."

/-- Scan for the first `DONE:` occurrence (`/DONE:\s*([\s\S]*)/`). -/
def doneScan : List Char → Option (List Char)
  | [] => none
  | c :: rest =>
      if List.isPrefixOf "DONE:".data (c :: rest) then some ((c :: rest).drop 5)
      else doneScan rest

/-- The replanner's `DONE: <answer>` match, trimmed. -/
def peDoneMatch (text : String) : Option String :=
  (doneScan text.data).map (fun cs => jsTrim (String.mk cs))

/-- The executor sub-loop (`executeStep`): up to 8 turns, consuming LLM
calls from index `k`; returns the step result (`none` = exceeded max turns)
and the number of calls used. -/
def executeStepGo (script : Nat → String) (tools : String → String → String) :
    Nat → Nat → Option String × Nat
  | 0, _ => (none, 0)
  | fuel + 1, k =>
      let response := script k
      let ans := parseReActAnswer response
      if optTruthy ans then (ans, 1)
      else
        match parseReActAction response with
        | some (name, input) =>
            let _obs := tools name input
            let (r, c) := executeStepGo script tools fuel (k + 1)
            (r, c + 1)
        | none => (some response, 1)

/-- Initial plan of `runPlanExecute`: the parsed planner output, or the raw
trimmed planner text as a single step when the parse is empty. -/
def initialPlan (planText : String) : List String :=
  let parsed := parsePlanSteps planText
  if parsed.isEmpty then [jsTrim planText] else parsed

/-- State returned by the execute/replan loop. -/
structure PELoopOut where
  pastSteps : List (String × String)
  replans : Nat
  finalAnswer : Option String
  calls : Nat
deriving Repr, DecidableEq

/-- The `while (plan.length > 0 && replanCount <= maxReplans)` loop of
`runPlanExecute`.  `fuel` only backs the recursion; `maxReplans + 2` always
suffices since every non-terminal iteration increments the replan counter. -/
def peLoop (script : Nat → String) (tools : String → String → String)
    (maxReplans : Nat) :
    Nat → List String → List (String × String) → Nat → Nat → PELoopOut
  | 0, _, past, rc, k => ⟨past, rc, none, k⟩
  | fuel + 1, plan, past, rc, k =>
      match plan with
      | [] => ⟨past, rc, none, k⟩
      | step :: _restPlan =>
          if rc > maxReplans then ⟨past, rc, none, k⟩
          else
            let (res, used) := executeStepGo script tools 8 k
            let k1 := k + used
            let stepOutput :=
              match res with
              | none => stepErrorMark
              | some r => r
            let past1 := past ++ [(step, stepOutput)]
            let replanResp := script k1
            let k2 := k1 + 1
            match peDoneMatch replanResp with
            | some d => ⟨past1, rc, some d, k2⟩
            | none =>
                let newSteps := parsePlanSteps replanResp
                if ¬newSteps.isEmpty then
                  peLoop script tools maxReplans fuel newSteps past1 (rc + 1) k2
                else
                  let fa :=
                    if stepOutput ≠ "" ∧ jsStartsWith stepOutput "[Error:" = false then
                      some stepOutput
                    else none
                  ⟨past1, rc, fa, k2⟩

/-- The post-loop fallback scan over past steps, most recent first. -/
def peScanRev : List (String × String) → Option String
  | [] => none
  | (_, r) :: rest =>
      if r ≠ "" ∧ jsStartsWith r "[Error:" = false then some r else peScanRev rest

/-- Observable result of `runPlanExecute` (usage and time omitted). -/
structure PEResult where
  planText : String
  pastSteps : List (String × String)
  replans : Nat
  answer : Option String
  error : Option String
  llmCalls : Nat
deriving Repr, DecidableEq

/-- Model of `runPlanExecute`.  The LLM is a script indexed by call number
(call 0 is the planner); tools are an oracle. -/
def runPlanExecute (script : Nat → String) (tools : String → String → String)
    (maxReplans : Nat) : PEResult :=
  let planText := script 0
  let plan := initialPlan planText
  let lo := peLoop script tools maxReplans (maxReplans + 2) plan [] 0 1
  let fa :=
    if optTruthy lo.finalAnswer then lo.finalAnswer
    else
      match peScanRev lo.pastSteps.reverse with
      | some r => some r
      | none => lo.finalAnswer
  { planText, pastSteps := lo.pastSteps, replans := lo.replans, answer := fa,
    error := if optTruthy fa then none else some peNoAnswerError,
    llmCalls := lo.calls }

/-- Frequency object of a list of original answer strings (exactly the
`originals` bookkeeping of `smartMajorityVote`). -/
def tallyStr (l : List String) : List (String × Nat) := l.foldl objIncr []

/-! # Theorems -/

/-- C1.  `callLLM` retry policy: four transient statuses consume all four
attempts with backoff waits 1000, 2000, 4000 ms (that is,
`1000 * 2^(attempt-1)` before retry attempt `attempt`) and fail with the
error of the last attempt; a non-retryable status fails immediately — at the
first attempt with one request and no backoff, or right after a transient
first attempt with two requests and a single 1000 ms backoff. -/
theorem callLLM_retry_policy (fetch : Nat → FetchOutcome) :
    (∀ s0 s1 s2 s3 m0 m1 m2 m3,
      fetch 0 = FetchOutcome.status s0 m0 → retryable s0 = true →
      fetch 1 = FetchOutcome.status s1 m1 → retryable s1 = true →
      fetch 2 = FetchOutcome.status s2 m2 → retryable s2 = true →
      fetch 3 = FetchOutcome.status s3 m3 → retryable s3 = true →
      callLLM fetch neverAborted =
        ⟨CallOutcome.failure (retryErrMsg s3 3), [1000, 2000, 4000], 4⟩) ∧
    (∀ c m, retryable c = false → fetch 0 = FetchOutcome.status c m →
      callLLM fetch neverAborted =
        ⟨CallOutcome.failure (nonRetryableMsg c m), [], 1⟩) ∧
    (∀ s0 m0 c m, fetch 0 = FetchOutcome.status s0 m0 → retryable s0 = true →
      retryable c = false → fetch 1 = FetchOutcome.status c m →
      callLLM fetch neverAborted =
        ⟨CallOutcome.failure (nonRetryableMsg c m), [1000], 2⟩) := by
  refine ⟨?_, ?_, ?_⟩
  · intro s0 s1 s2 s3 m0 m1 m2 m3 h0 r0 h1 r1 h2 r2 h3 r3
    simp [callLLM, callLLMAux, neverAborted, h0, h1, h2, h3, r0, r1, r2, r3,
      MAX_RETRIES, backoffDelay, BASE_DELAY_MS]
  · intro c m hc h0
    simp [callLLM, callLLMAux, neverAborted, h0, hc, MAX_RETRIES]
  · intro s0 m0 c m h0 r0 hc h1
    simp [callLLM, callLLMAux, neverAborted, h0, h1, r0, hc,
      MAX_RETRIES, backoffDelay, BASE_DELAY_MS]

/-- Witness for C1 at concrete fetch oracles. -/
theorem callLLM_retry_policy_witness :
    callLLM (fun _ => FetchOutcome.status 429 none) neverAborted =
      ⟨CallOutcome.failure (retryErrMsg 429 3), [1000, 2000, 4000], 4⟩ ∧
    callLLM (fun _ => FetchOutcome.status 400 (some "bad request")) neverAborted =
      ⟨CallOutcome.failure (nonRetryableMsg 400 (some "bad request")), [], 1⟩ ∧
    callLLM (fun a => if a = 0 then FetchOutcome.status 503 none
                      else FetchOutcome.status 404 none) neverAborted =
      ⟨CallOutcome.failure (nonRetryableMsg 404 none), [1000], 2⟩ :=
  ⟨(callLLM_retry_policy _).1 429 429 429 429 none none none none
      rfl (by decide) rfl (by decide) rfl (by decide) rfl (by decide),
   (callLLM_retry_policy _).2.1 400 (some "bad request") (by decide) rfl,
   (callLLM_retry_policy _).2.2 503 none 404 none rfl (by decide) (by decide) rfl⟩

/-- C8.  Cancellation in `callLLM`: if the abort flag is set at the check
before the first attempt, the call ends with the distinct `AbortError`
outcome and issues no request; if it is set at the check before a retry, or
at the check after the backoff wait of a retry, no further request is issued
and the transient failure is not retried. -/
theorem callLLM_abort_policy :
    (∀ (fetch : Nat → FetchOutcome) (sig : AbortOracle), sig.beforeAttempt 0 = true →
      callLLM fetch sig = ⟨CallOutcome.abortError, [], 0⟩) ∧
    (∀ (fetch : Nat → FetchOutcome) (sig : AbortOracle) (s : Nat) (m : Option String),
      sig.beforeAttempt 0 = false → fetch 0 = FetchOutcome.status s m →
      retryable s = true → sig.beforeAttempt 1 = true →
      callLLM fetch sig = ⟨CallOutcome.abortError, [], 1⟩) ∧
    (∀ (fetch : Nat → FetchOutcome) (sig : AbortOracle) (s : Nat) (m : Option String),
      sig.beforeAttempt 0 = false → fetch 0 = FetchOutcome.status s m →
      retryable s = true → sig.beforeAttempt 1 = false → sig.afterWait 1 = true →
      callLLM fetch sig = ⟨CallOutcome.abortError, [1000], 1⟩) := by
  refine ⟨?_, ?_, ?_⟩
  · intro fetch sig h
    simp [callLLM, callLLMAux, h]
  · intro fetch sig s m hb0 h0 hr hb1
    simp [callLLM, callLLMAux, hb0, h0, hr, hb1, MAX_RETRIES]
  · intro fetch sig s m hb0 h0 hr hb1 ha1
    simp [callLLM, callLLMAux, hb0, h0, hr, hb1, ha1,
      MAX_RETRIES, backoffDelay, BASE_DELAY_MS]

/-- Witness for C8 at concrete abort oracles. -/
theorem callLLM_abort_policy_witness :
    callLLM (fun _ => FetchOutcome.status 429 none) ⟨fun _ => true, fun _ => false⟩ =
      ⟨CallOutcome.abortError, [], 0⟩ ∧
    callLLM (fun _ => FetchOutcome.status 429 none)
      ⟨fun a => a ≥ 1, fun _ => false⟩ = ⟨CallOutcome.abortError, [], 1⟩ ∧
    callLLM (fun _ => FetchOutcome.status 429 none)
      ⟨fun _ => false, fun a => a ≥ 1⟩ = ⟨CallOutcome.abortError, [1000], 1⟩ :=
  ⟨callLLM_abort_policy.1 _ _ rfl,
   callLLM_abort_policy.2.1 _ _ 429 none (by decide) rfl (by decide) (by decide),
   callLLM_abort_policy.2.2 _ _ 429 none rfl rfl (by decide) rfl (by decide)⟩

/-- Helper: loop invariant of `runReActGo` when every reply has no `Answer:`
and a well-formed action — each iteration appends exactly one assistant and
one observation event and the loop runs out of fuel. -/
theorem runReActGo_allAction (script : Nat → String) (tools : String → String → String)
    (maxTurns : Nat)
    (hA : ∀ i, parseReActAnswer (script i) = none)
    (hAct : ∀ i, (parseReActAction (script i)).isSome) :
    ∀ (fuel turn : Nat) (traj : List TrajEvent),
      (runReActGo script tools maxTurns fuel turn traj).truncated = true ∧
      (runReActGo script tools maxTurns fuel turn traj).turns = turn + fuel ∧
      (runReActGo script tools maxTurns fuel turn traj).llmCalls = turn + fuel ∧
      (runReActGo script tools maxTurns fuel turn traj).trajectory.length =
        traj.length + 2 * fuel := by
  intro fuel
  induction fuel with
  | zero => intro turn traj; simp [runReActGo]
  | succ n ih =>
      intro turn traj
      obtain ⟨⟨name, input⟩, hact⟩ := Option.isSome_iff_exists.mp (hAct turn)
      have ha := hA turn
      simp only [runReActGo, ha, hact, optTruthy, Bool.false_eq_true, if_false]
      have h := ih (turn + 1)
        (traj ++ [⟨TrajRole.assistant, script turn, turn + 1⟩] ++
          [⟨TrajRole.observation, tools name input, turn + 1⟩])
      refine ⟨h.1, ?_, ?_, ?_⟩
      · rw [h.2.1]; omega
      · rw [h.2.2.1]; omega
      · rw [h.2.2.2]; simp; omega

/-- C2 (counterexample).  With the scripted LLM always replying with a
well-formed action and never an `Answer:` line, a `maxTurns = 1` run ends
with `truncated: true` but a trajectory of 2 events — more than the claimed
`2 * maxTurns - 1`. -/
theorem runReAct_trajectory_cex :
    (∀ i : Nat, parseReActAnswer ((fun _ => "Action: calculate: 1+1\nPAUSE") i) = none) ∧
    (∀ i : Nat, (parseReActAction ((fun _ => "Action: calculate: 1+1\nPAUSE") i)).isSome) ∧
    (runReAct (fun _ => "Action: calculate: 1+1\nPAUSE") (fun _ _ => "2") 1).truncated
      = true ∧
    (runReAct (fun _ => "Action: calculate: 1+1\nPAUSE") (fun _ _ => "2") 1).trajectory.length
      = 2 ∧
    ¬((runReAct (fun _ => "Action: calculate: 1+1\nPAUSE") (fun _ _ => "2") 1).trajectory.length
        ≤ 2 * 1 - 1) :=
  ⟨fun _ => rfl, fun _ => rfl, rfl, rfl, by decide⟩

/-- C2 (amended).  For a run in which every LLM reply parses to an action and
never to an `Answer:`, `runReAct` terminates after exactly `maxTurns` turns
with `truncated: true`, `llmCalls = turns = maxTurns`, and a trajectory of
exactly `2 * maxTurns` events (one assistant and one observation event per
turn). -/
theorem runReAct_truncation (script : Nat → String) (tools : String → String → String)
    (maxTurns : Nat)
    (hA : ∀ i, parseReActAnswer (script i) = none)
    (hAct : ∀ i, (parseReActAction (script i)).isSome) :
    (runReAct script tools maxTurns).truncated = true ∧
    (runReAct script tools maxTurns).turns = maxTurns ∧
    (runReAct script tools maxTurns).llmCalls = maxTurns ∧
    (runReAct script tools maxTurns).trajectory.length = 2 * maxTurns := by
  have h := runReActGo_allAction script tools maxTurns hA hAct maxTurns 0 []
  simpa [runReAct] using h

/-- Witness for C2 (amended) at a concrete script and `maxTurns = 2`. -/
theorem runReAct_truncation_witness :
    (runReAct (fun _ => "Action: calculate: 1+1\nPAUSE") (fun _ _ => "2") 2).truncated
      = true ∧
    (runReAct (fun _ => "Action: calculate: 1+1\nPAUSE") (fun _ _ => "2") 2).turns = 2 ∧
    (runReAct (fun _ => "Action: calculate: 1+1\nPAUSE") (fun _ _ => "2") 2).llmCalls = 2 ∧
    (runReAct (fun _ => "Action: calculate: 1+1\nPAUSE") (fun _ _ => "2") 2).trajectory.length
      = 4 :=
  runReAct_truncation (fun _ => "Action: calculate: 1+1\nPAUSE") (fun _ _ => "2") 2
    (fun _ => rfl) (fun _ => rfl)

/-! ### Helper lemmas about JS-object enumeration and the merge fold -/

theorem insAsc_perm (x : String × α) (l : List (String × α)) :
    List.Perm (insAsc x l) (x :: l) := by
  induction l with
  | nil => exact List.Perm.refl _
  | cons y rest ih =>
      simp only [insAsc]
      by_cases h : (isCanonicalIndex y.1).getD 0 ≤ (isCanonicalIndex x.1).getD 0
      · simp only [h, if_true]
        exact (ih.cons y).trans (List.Perm.swap x y rest)
      · simp only [h, if_false]
        exact List.Perm.refl _

theorem foldl_insAsc_perm (l : List (String × α)) :
    ∀ acc, List.Perm (l.foldl (fun a x => insAsc x a) acc) (acc ++ l) := by
  induction l with
  | nil => intro acc; simp
  | cons x rest ih =>
      intro acc
      have h1 : (x :: rest).foldl (fun a x => insAsc x a) acc
          = rest.foldl (fun a x => insAsc x a) (insAsc x acc) := by simp
      rw [h1]
      have h2 := ih (insAsc x acc)
      have h3 : List.Perm (insAsc x acc ++ rest) ((x :: acc) ++ rest) :=
        (insAsc_perm x acc).append_right rest
      have h4 : List.Perm (acc ++ x :: rest) (x :: (acc ++ rest)) := List.perm_middle
      exact ((h2.trans h3).trans (List.Perm.refl _)).trans h4.symm

theorem jsKeysOrder_perm (l : List (String × α)) : List.Perm (jsKeysOrder l) l := by
  unfold jsKeysOrder
  have h1 : List.Perm
      ((l.filter (fun kv => (isCanonicalIndex kv.1).isSome)).foldl
        (fun acc x => insAsc x acc) [])
      (l.filter (fun kv => (isCanonicalIndex kv.1).isSome)) :=
    (foldl_insAsc_perm _ []).trans (by simp)
  exact (h1.append_right _).trans (List.filter_append_perm _ l)

theorem jsKeysOrder_mem (l : List (String × α)) (y : String × α) :
    y ∈ jsKeysOrder l ↔ y ∈ l :=
  (jsKeysOrder_perm l).mem_iff

theorem insDescBy_perm (key : α → Nat) (x : α) (l : List α) :
    List.Perm (insDescBy key x l) (x :: l) := by
  induction l with
  | nil => exact List.Perm.refl _
  | cons y rest ih =>
      simp only [insDescBy]
      by_cases h : key y ≥ key x
      · simp only [h, if_true]
        exact (ih.cons y).trans (List.Perm.swap x y rest)
      · simp only [h, if_false]
        exact List.Perm.refl _

theorem foldl_insDescBy_perm (key : α → Nat) (l : List α) :
    ∀ acc, List.Perm (l.foldl (fun a x => insDescBy key x a) acc) (acc ++ l) := by
  induction l with
  | nil => intro acc; simp
  | cons x rest ih =>
      intro acc
      have h1 : (x :: rest).foldl (fun a x => insDescBy key x a) acc
          = rest.foldl (fun a x => insDescBy key x a) (insDescBy key x acc) := by simp
      rw [h1]
      have h3 : List.Perm (insDescBy key x acc ++ rest) ((x :: acc) ++ rest) :=
        (insDescBy_perm key x acc).append_right rest
      have h4 : List.Perm (acc ++ x :: rest) (x :: (acc ++ rest)) := List.perm_middle
      exact ((ih (insDescBy key x acc)).trans h3).trans h4.symm

theorem sortedGroups_perm (gs : List (String × VGroup)) :
    List.Perm (sortedGroups gs) gs := by
  unfold sortedGroups
  exact ((foldl_insDescBy_perm _ _ []).trans (by simp)).trans (jsKeysOrder_perm gs)

theorem areSimilar_refl (a : String) : areSimilar a a = true := by
  simp [areSimilar]

theorem areSimilar_short (a b : String) (hne : a ≠ b)
    (h : a.length < 2 ∨ b.length < 2) : areSimilar a b = false := by
  rcases h with h | h <;> simp [areSimilar, hne, h]

theorem objMergeGroup_keys (m : List (String × VGroup)) (c : String) (src : VGroup) :
    (objMergeGroup m c src).map Prod.fst = m.map Prod.fst := by
  induction m with
  | nil => rfl
  | cons kv rest ih =>
      obtain ⟨k, g⟩ := kv
      simp only [objMergeGroup]
      by_cases h : k = c
      · simp [h]
      · simp [h, ih]

theorem objMergeGroup_mem_preserved (m : List (String × VGroup)) (c : String)
    (src : VGroup) (k : String) (g : VGroup) (hkc : k ≠ c) (hm : (k, g) ∈ m) :
    (k, g) ∈ objMergeGroup m c src := by
  induction m with
  | nil => cases hm
  | cons kv rest ih =>
      obtain ⟨k', g'⟩ := kv
      simp only [objMergeGroup]
      by_cases hc : k' = c
      · rw [if_pos hc]
        rcases List.mem_cons.mp hm with h | h
        · exact absurd (by rw [show k = k' from (Prod.ext_iff.mp h).1, hc]) hkc
        · exact List.mem_cons.mpr (Or.inr h)
      · rw [if_neg hc]
        rcases List.mem_cons.mp hm with h | h
        · exact List.mem_cons.mpr (Or.inl h)
        · exact List.mem_cons.mpr (Or.inr (ih h))

theorem findCanon_none_of_short (m : List (String × VGroup)) (k : String)
    (hk : k.length < 2) (hne : ∀ kv ∈ m, kv.1 ≠ k) :
    findCanon (jsKeysOrder m) k = none := by
  unfold findCanon
  rw [List.find?_eq_none.mpr]
  · rfl
  · intro kv hkv
    have hmem := (jsKeysOrder_mem m kv).mp hkv
    simp [areSimilar_short k kv.1 (fun he => hne kv hmem he.symm) (Or.inl hk)]

theorem findCanon_some_similar (m : List (String × VGroup)) (key c : String)
    (h : findCanon m key = some c) : ∃ g, (c, g) ∈ m ∧ areSimilar key c = true := by
  unfold findCanon at h
  obtain ⟨kv, hf, hc⟩ := Option.map_eq_some'.mp h
  refine ⟨kv.2, ?_, ?_⟩
  · rw [← hc]; exact List.mem_of_find?_eq_some hf
  · rw [← hc]
    have := List.find?_some hf
    simpa using this

theorem mergeInto_mem_preserved (m : List (String × VGroup)) (key : String)
    (g' : VGroup) (k : String) (g : VGroup) (hk : k.length < 2) (hne : key ≠ k)
    (hm : (k, g) ∈ m) : (k, g) ∈ mergeInto m key g' := by
  unfold mergeInto
  cases hfc : findCanon (jsKeysOrder m) key with
  | none => exact List.mem_append.mpr (Or.inl hm)
  | some c =>
      obtain ⟨gc, _hcm, hsim⟩ := findCanon_some_similar _ key c hfc
      have hck : k ≠ c := by
        intro he
        rw [← he] at hsim
        rw [areSimilar_short key k hne (Or.inr hk)] at hsim
        cases hsim
      exact objMergeGroup_mem_preserved m c g' k g hck hm

theorem mergeFold_mem_preserved (L : List (String × VGroup))
    (m0 : List (String × VGroup)) (k : String) (g : VGroup) (hk : k.length < 2)
    (hL : ∀ kv ∈ L, kv.1 ≠ k) (hm : (k, g) ∈ m0) :
    (k, g) ∈ L.foldl (fun m kv => mergeInto m kv.1 kv.2) m0 := by
  induction L generalizing m0 with
  | nil => exact hm
  | cons kv rest ih =>
      simp only [List.foldl_cons]
      exact ih (mergeInto m0 kv.1 kv.2) (fun x hx => hL x (List.mem_cons.mpr (Or.inr hx)))
        (mergeInto_mem_preserved m0 kv.1 kv.2 k g hk
          (hL kv (List.mem_cons.mpr (Or.inl rfl))) hm)

theorem mergeInto_keys_subset (m : List (String × VGroup)) (key : String) (g : VGroup) :
    ∀ c ∈ (mergeInto m key g).map Prod.fst, c ∈ m.map Prod.fst ∨ c = key := by
  intro c hc
  unfold mergeInto at hc
  cases hfc : findCanon (jsKeysOrder m) key with
  | some c' =>
      rw [hfc] at hc
      rw [objMergeGroup_keys] at hc
      exact Or.inl hc
  | none =>
      rw [hfc] at hc
      simp only [List.map_append, List.mem_append] at hc
      rcases hc with hc | hc
      · exact Or.inl hc
      · simp at hc; exact Or.inr hc

theorem mergeFold_keys_subset (L : List (String × VGroup)) :
    ∀ (m0 : List (String × VGroup)),
      ∀ c ∈ (L.foldl (fun m kv => mergeInto m kv.1 kv.2) m0).map Prod.fst,
        c ∈ m0.map Prod.fst ∨ c ∈ L.map Prod.fst := by
  induction L with
  | nil => intro m0 c hc; exact Or.inl hc
  | cons kv rest ih =>
      intro m0 c hc
      simp only [List.foldl_cons] at hc
      rcases ih (mergeInto m0 kv.1 kv.2) c hc with h | h
      · rcases mergeInto_keys_subset m0 kv.1 kv.2 c h with h' | h'
        · exact Or.inl h'
        · exact Or.inr (by simp [h'])
      · exact Or.inr (List.mem_map.mpr (by
          obtain ⟨x, hx, he⟩ := List.mem_map.mp h
          exact ⟨x, List.mem_cons.mpr (Or.inr hx), he⟩))

theorem mergeInto_keys_nodup (m : List (String × VGroup)) (key : String) (g : VGroup)
    (hnd : (m.map Prod.fst).Nodup) : ((mergeInto m key g).map Prod.fst).Nodup := by
  unfold mergeInto
  cases hfc : findCanon (jsKeysOrder m) key with
  | some c => rw [objMergeGroup_keys]; exact hnd
  | none =>
      have hkey : key ∉ m.map Prod.fst := by
        intro hmem
        obtain ⟨kv, hkv, hke⟩ := List.mem_map.mp hmem
        have := List.find?_eq_none.mp (by
          unfold findCanon at hfc
          exact Option.map_eq_none'.mp hfc) kv ((jsKeysOrder_mem m kv).mpr hkv)
        rw [hke, areSimilar_refl] at this
        exact this rfl
      simp only [List.map_append, List.map_cons, List.map_nil]
      exact List.Nodup.append hnd (List.nodup_singleton key)
        (by intro a ha hb; simp at hb; rw [hb] at ha; exact hkey ha)

theorem mergeFold_keys_nodup (L : List (String × VGroup)) :
    ∀ (m0 : List (String × VGroup)), (m0.map Prod.fst).Nodup →
      ((L.foldl (fun m kv => mergeInto m kv.1 kv.2) m0).map Prod.fst).Nodup := by
  induction L with
  | nil => intro m0 h; exact h
  | cons kv rest ih =>
      intro m0 h
      simp only [List.foldl_cons]
      exact ih _ (mergeInto_keys_nodup m0 kv.1 kv.2 h)

/-- C9.  In the substring-merge step, similarity never holds between two
distinct keys when either has fewer than two characters (and a key always
matches itself); consequently a short-keyed group (for example `"9"` next to
`"89"`) survives the merge untouched — its exact `(key, group)` pair is still
present, and the merged object has no duplicate keys. -/
theorem mergeGroups_short_keys :
    (∀ a b : String, a ≠ b → a.length < 2 ∨ b.length < 2 → areSimilar a b = false) ∧
    (∀ a : String, areSimilar a a = true) ∧
    (∀ (gs : List (String × VGroup)) (k : String) (g : VGroup),
      (gs.map Prod.fst).Nodup → (k, g) ∈ gs → k.length < 2 →
      (k, g) ∈ mergeGroups gs ∧ ((mergeGroups gs).map Prod.fst).Nodup) := by
  refine ⟨areSimilar_short, areSimilar_refl, ?_⟩
  intro gs k g hnd hmem hk
  have hperm := sortedGroups_perm gs
  have hndS : ((sortedGroups gs).map Prod.fst).Nodup :=
    ((hperm.map Prod.fst).nodup_iff).mpr hnd
  have hmemS : (k, g) ∈ sortedGroups gs := hperm.mem_iff.mpr hmem
  obtain ⟨L1, L2, hsplit⟩ := List.append_of_mem hmemS
  constructor
  · unfold mergeGroups
    rw [hsplit, List.foldl_append, List.foldl_cons]
    have hndk : k ∉ (L1.map Prod.fst) ∧ k ∉ (L2.map Prod.fst) := by
      rw [hsplit] at hndS
      simp only [List.map_append, List.map_cons] at hndS
      have h1 := List.Nodup.of_append_right hndS
      have h2 := (List.disjoint_of_nodup_append hndS)
      constructor
      · intro hmem1
        exact (h2 hmem1) (List.mem_cons.mpr (Or.inl rfl))
      · exact (List.nodup_cons.mp h1).1
    set m1 := L1.foldl (fun m kv => mergeInto m kv.1 kv.2) [] with hm1
    have hkm1 : ∀ kv ∈ m1, kv.1 ≠ k := by
      intro kv hkv he
      rcases mergeFold_keys_subset L1 [] kv.1 (List.mem_map.mpr ⟨kv, hkv, rfl⟩) with h | h
      · cases h
      · rw [he] at h; exact hndk.1 h
    have hstep : mergeInto m1 k g = m1 ++ [(k, g)] := by
      unfold mergeInto
      rw [findCanon_none_of_short m1 k hk hkm1]
    rw [hstep]
    exact mergeFold_mem_preserved L2 _ k g hk
      (fun kv hkv he => hndk.2 (he ▸ List.mem_map.mpr ⟨kv, hkv, rfl⟩))
      (List.mem_append.mpr (Or.inr (List.mem_cons.mpr (Or.inl rfl))))
  · exact mergeFold_keys_nodup (sortedGroups gs) [] List.nodup_nil

/-- Witness for C9: `"9"` and `"89"` stay distinct groups through the merge
step. -/
theorem mergeGroups_short_keys_witness :
    areSimilar "9" "89" = false ∧
    ("9", (⟨1, [("9", 1)]⟩ : VGroup)) ∈
      mergeGroups [("89", ⟨2, [("89", 2)]⟩), ("9", ⟨1, [("9", 1)]⟩)] ∧
    ((mergeGroups [("89", ⟨2, [("89", 2)]⟩),
        ("9", ⟨1, [("9", 1)]⟩)]).map Prod.fst).Nodup :=
  ⟨mergeGroups_short_keys.1 "9" "89" (by decide) (Or.inl (by decide)),
   (mergeGroups_short_keys.2.2 [("89", ⟨2, [("89", 2)]⟩), ("9", ⟨1, [("9", 1)]⟩)]
      "9" ⟨1, [("9", 1)]⟩ (by decide) (by decide) (by decide)).1,
   (mergeGroups_short_keys.2.2 [("89", ⟨2, [("89", 2)]⟩), ("9", ⟨1, [("9", 1)]⟩)]
      "9" ⟨1, [("9", 1)]⟩ (by decide) (by decide) (by decide)).2⟩

theorem objSetStr_keys_new (l : List (String × String)) (k v : String)
    (hk : k ∉ l.map Prod.fst) :
    (objSetStr l k v).map Prod.fst = l.map Prod.fst ++ [k] := by
  induction l with
  | nil => rfl
  | cons kv rest ih =>
      obtain ⟨k', v'⟩ := kv
      simp only [objSetStr]
      have hne : k' ≠ k := by
        intro he
        exact hk (by simp [he])
      rw [if_neg hne]
      simp only [List.map_cons, List.cons_append, List.cons.injEq, true_and]
      exact ih (fun hmem => hk (by simp [hmem]))

theorem runReWOOWorker_keys (tools : String → String → String)
    (llm : String → String) :
    ∀ (steps : List PlanStep) (ev : List (String × String)),
      (steps.map PlanStep.varName).Nodup →
      (∀ s ∈ steps, s.varName ∉ ev.map Prod.fst) →
      (runReWOOWorker tools llm steps ev).map Prod.fst =
        ev.map Prod.fst ++ steps.map PlanStep.varName := by
  intro steps
  induction steps with
  | nil => intro ev _ _; simp [runReWOOWorker]
  | cons s rest ih =>
      intro ev hnd hdisj
      simp only [runReWOOWorker]
      have hsk : s.varName ∉ ev.map Prod.fst :=
        hdisj s (List.mem_cons.mpr (Or.inl rfl))
      have hkeys := objSetStr_keys_new ev s.varName
        (stepStore tools llm s (substInput ev s.toolInput)) hsk
      have hnd' : (rest.map PlanStep.varName).Nodup := by
        simp only [List.map_cons, List.nodup_cons] at hnd
        exact hnd.2
      have hnotin : s.varName ∉ rest.map PlanStep.varName := by
        simp only [List.map_cons, List.nodup_cons] at hnd
        exact hnd.1
      have hdisj' : ∀ s' ∈ rest,
          s'.varName ∉ (objSetStr ev s.varName
            (stepStore tools llm s (substInput ev s.toolInput))).map Prod.fst := by
        intro s' hs'
        rw [hkeys]
        intro hmem
        rcases List.mem_append.mp hmem with h | h
        · exact hdisj s' (List.mem_cons.mpr (Or.inr hs')) h
        · simp only [List.mem_singleton] at h
          exact hnotin (h ▸ List.mem_map.mpr ⟨s', hs', rfl⟩)
      rw [ih _ hnd' hdisj', hkeys]
      simp

/-- C10.  ReWOO's worker stores, per executed step, exactly one evidence
value keyed by the step's variable: a non-`LLM` tool result is wrapped as
`[FAILED: …]` precisely when it starts with `Error:` — so a calculator
failure `Calculation error: …` is stored verbatim — and every `LLM`
pseudo-tool result is stored verbatim; with distinct variables the evidence
keys are exactly the step variables in order. -/
theorem rewoo_evidence_rules :
    (∀ (tools : String → String → String) (llm : String → String) (s : PlanStep)
        (input : String),
      (jsLower s.tool = "llm" → stepStore tools llm s input = llm input) ∧
      (jsLower s.tool ≠ "llm" → jsStartsWith (tools s.tool input) "Error:" = true →
        stepStore tools llm s input = "[FAILED: " ++ tools s.tool input ++ "]") ∧
      (jsLower s.tool ≠ "llm" → jsStartsWith (tools s.tool input) "Error:" = false →
        stepStore tools llm s input = tools s.tool input) ∧
      (∀ msg, jsLower s.tool ≠ "llm" →
        tools s.tool input = "Calculation error: " ++ msg →
        stepStore tools llm s input = "Calculation error: " ++ msg)) ∧
    (∀ (tools : String → String → String) (llm : String → String)
        (steps : List PlanStep),
      (steps.map PlanStep.varName).Nodup →
      (runReWOOEvidence tools llm steps).map Prod.fst =
        steps.map PlanStep.varName) := by
  constructor
  · intro tools llm s input
    refine ⟨?_, ?_, ?_, ?_⟩
    · intro h; simp [stepStore, h]
    · intro h hw; simp [stepStore, h, hw]
    · intro h hw; simp [stepStore, h, hw]
    · intro msg h hc
      have hw : jsStartsWith (tools s.tool input) "Error:" = false := by
        rw [hc]
        show List.isPrefixOf "Error:".data ("Calculation error: " ++ msg).data = false
        rw [String.data_append]
        rfl
      simp only [stepStore, h, if_neg, hw, Bool.false_eq_true, if_false]
      simpa using hc
  · intro tools llm steps hnd
    have h := runReWOOWorker_keys tools llm steps [] hnd (by simp)
    simpa [runReWOOEvidence] using h

/-- Witness for C10 at a concrete plan: a calculator failure stays verbatim,
a `wikipedia` error string is wrapped, the LLM pseudo-tool is verbatim, and
the evidence keys are the plan variables. -/
theorem rewoo_evidence_rules_witness :
    stepStore (fun t _ => if t = "calculate" then "Calculation error: x" else "Error: down")
      (fun i => "llm:" ++ i) ⟨"d", "#E1", "calculate", "1+"⟩ "1+" = "Calculation error: x" ∧
    stepStore (fun t _ => if t = "calculate" then "Calculation error: x" else "Error: down")
      (fun i => "llm:" ++ i) ⟨"d", "#E2", "wikipedia", "q"⟩ "q" = "[FAILED: Error: down]" ∧
    stepStore (fun t _ => if t = "calculate" then "Calculation error: x" else "Error: down")
      (fun i => "llm:" ++ i) ⟨"d", "#E3", "LLM", "think"⟩ "think" = "llm:think" ∧
    (runReWOOEvidence
        (fun t _ => if t = "calculate" then "Calculation error: x" else "Error: down")
        (fun i => "llm:" ++ i)
        [⟨"d", "#E1", "calculate", "1+"⟩, ⟨"d", "#E2", "wikipedia", "q"⟩,
          ⟨"d", "#E3", "LLM", "think"⟩]).map Prod.fst = ["#E1", "#E2", "#E3"] :=
  ⟨(rewoo_evidence_rules.1 _ _ ⟨"d", "#E1", "calculate", "1+"⟩ "1+").2.2.2 "x"
      (by decide) rfl,
   (rewoo_evidence_rules.1 _ _ ⟨"d", "#E2", "wikipedia", "q"⟩ "q").2.1
      (by decide) (by decide),
   (rewoo_evidence_rules.1 _ _ ⟨"d", "#E3", "LLM", "think"⟩ "think").1 rfl,
   rewoo_evidence_rules.2 _ _
      [⟨"d", "#E1", "calculate", "1+"⟩, ⟨"d", "#E2", "wikipedia", "q"⟩,
        ⟨"d", "#E3", "LLM", "think"⟩] (by decide)⟩

/-- C7.  Plan-Execute never starts from an empty plan: when the planner
output parses to zero steps the plan is exactly the raw trimmed planner text
as a single step; and whenever a run returns no answer its `error` is the
fixed "did not produce a final answer" message. -/
theorem planExecute_empty_plan_and_error :
    (∀ t : String, parsePlanSteps t = [] → initialPlan t = [jsTrim t]) ∧
    (∀ t : String, initialPlan t ≠ []) ∧
    (∀ (script : Nat → String) (tools : String → String → String) (maxReplans : Nat),
      (runPlanExecute script tools maxReplans).answer = none →
      (runPlanExecute script tools maxReplans).error = some peNoAnswerError) := by
  refine ⟨?_, ?_, ?_⟩
  · intro t h; simp [initialPlan, h]
  · intro t
    unfold initialPlan
    by_cases h : (parsePlanSteps t).isEmpty
    · simp [h]
    · simp [h]
      intro he
      rw [he] at h
      simp at h
  · intro script tools maxReplans h
    unfold runPlanExecute at h ⊢
    simp only at h ⊢
    rw [h]
    rfl

/-- Witness for C7: a planner output with no numbered or bulleted lines
becomes the single trimmed step and gets executed; a run whose every step
fails produces `answer = none` with the fixed error. -/
theorem planExecute_empty_plan_and_error_witness :
    parsePlanSteps " just answer directly " = [] ∧
    initialPlan " just answer directly " = ["just answer directly"] ∧
    (runPlanExecute
        (fun k => if k = 0 then " just answer directly "
                  else if k ≤ 8 then "Action: calculate: 1+1\nPAUSE"
                  else "neither a plan nor done")
        (fun _ _ => "2") 20).pastSteps =
      [("just answer directly", stepErrorMark)] ∧
    (runPlanExecute
        (fun k => if k = 0 then " just answer directly "
                  else if k ≤ 8 then "Action: calculate: 1+1\nPAUSE"
                  else "neither a plan nor done")
        (fun _ _ => "2") 20).answer = none ∧
    (runPlanExecute
        (fun k => if k = 0 then " just answer directly "
                  else if k ≤ 8 then "Action: calculate: 1+1\nPAUSE"
                  else "neither a plan nor done")
        (fun _ _ => "2") 20).error = some peNoAnswerError :=
  ⟨by decide,
   planExecute_empty_plan_and_error.1 " just answer directly " (by decide),
   by decide,
   by decide,
   planExecute_empty_plan_and_error.2.2 _ _ 20 (by decide)⟩

/-- C5 (code evaluated at the failing input).  The `wikipedia` tool's first
fetch is not guarded by any `try`, so a network rejection propagates out of
`executeTool` as a rejected promise instead of an `"Error: …"` string —
contradicting the module's own documentation ("errors are returned as
'Error: …' strings, not thrown").  The same happens through the web-search
fallback.  The unknown-tool path, by contrast, does return the documented
error string listing all registered names. -/
theorem executeTool_wikipedia_rejects :
    executeTool ⟨Except.error "network down", Except.ok none, none, "clock"⟩ true
      "wikipedia" "anything" = Except.error "network down" ∧
    executeTool ⟨Except.error "network down", Except.ok none, none, "clock"⟩ false
      "Search" "anything" = Except.error "network down" ∧
    executeTool ⟨Except.error "x", Except.ok none, none, "clock"⟩ true "nope" "y" =
      Except.ok ("Error: Unknown tool \"nope\". Available tools: wikipedia, search, websearch, calculate, current_datetime, datetime") :=
  ⟨rfl, rfl, rfl⟩

/-- C6 (counterexample).  Pattern 1 of `extractAnswer` is
`/[Tt]he answer is …/m` — only the first letter is case-flexible, so the
claimed full case-insensitivity fails: `"tHE answer is 42."` extracts
nothing, while the properly capitalized text extracts `"42"`. -/
theorem extractAnswer_case_cex :
    extractAnswer "tHE answer is 42." = none ∧
    extractAnswer "The answer is 42." = some "42" :=
  ⟨by decide, by decide⟩

/-- C6 (amended).  `extractAnswer` tries the `[Tt]he answer is X` pattern
(first letter case-flexible only, end-anchored, multiline) before the
`####`, conclusion-connective and `(final) answer:` patterns; commas are
stripped only in that first case, trailing periods are stripped; and the
given instances hold. -/
theorem extractAnswer_patterns :
    (∀ (text : String) (cap : List Char), extract1 text.data = some cap →
      jsTrim (String.mk (cap.filter (fun c => c ≠ ','))) ≠ "" →
      extractAnswer text =
        (if cleanupAnswer (jsTrim (String.mk (cap.filter (fun c => c ≠ ',')))) = ""
         then none
         else some (cleanupAnswer (jsTrim (String.mk (cap.filter (fun c => c ≠ ','))))))) ∧
    extractAnswer "The answer is 42." = some "42" ∧
    extractAnswer "#### 17" = some "17" ∧
    extractAnswer "no conclusion here" = none ∧
    extractAnswer "#### 5\nThe answer is 7." = some "7" ∧
    extractAnswer "The answer is 1,234." = some "1234" ∧
    extractAnswer "#### 1,234" = some "1,234" ∧
    extractAnswer "The answer is 42.." = some "42" := by
  refine ⟨?_, by decide, by decide, by decide, by decide, by decide, by decide, by decide⟩
  intro text cap h1 hne
  have htext : text ≠ "" := by
    intro he
    rw [he] at h1
    cases h1
  unfold extractAnswer
  rw [if_neg htext]
  simp only [h1, hne, if_true, if_false, ite_not]

/-- Witness for C6 (amended): the pattern-1 priority clause applied at a
concrete text. -/
theorem extractAnswer_patterns_witness :
    extractAnswer "The answer is 1,234. Ok" =
      (if cleanupAnswer (jsTrim (String.mk
          (("1234. Ok".data).filter (fun c => c ≠ ',')))) = "" then none
       else some (cleanupAnswer (jsTrim (String.mk
          (("1234. Ok".data).filter (fun c => c ≠ ',')))))) :=
  extractAnswer_patterns.1 "The answer is 1,234. Ok" "1,234. Ok".data
    (by decide) (by decide)

/-- C4 (counterexample).  `calculate`'s guard compares the sanitized text
(which keeps whitespace) against the *trimmed* input, so an input made of
allowed characters only — but with leading whitespace — is rejected without
evaluation, contradicting the claimed "error exactly when a disallowed
character occurs". -/
theorem calculate_whitespace_cex :
    (∀ c ∈ (" 2+2" : String).data, allowedCalcChar c = true) ∧
    calculate " 2+2" = calcSanitizeError ∧
    calculate "2+2" = "4" :=
  ⟨by decide, by decide, by decide⟩

theorem mk_data_eq (s : String) : String.mk s.data = s := by
  cases s
  rfl

theorem mem_dropWhile_of_not (p : Char → Bool) :
    ∀ (l : List Char) (c : Char), c ∈ l → p c = false → c ∈ l.dropWhile p := by
  intro l
  induction l with
  | nil => intro c hc; cases hc
  | cons x rest ih =>
      intro c hc hp
      rw [List.dropWhile_cons]
      by_cases hx : p x = true
      · simp only [hx, if_true]
        rcases List.mem_cons.mp hc with h | h
        · rw [h] at hp; rw [hp] at hx; cases hx
        · exact ih c h hp
      · simp only [hx, if_false]
        exact hc

theorem mem_jsTrimL_of_not_space (l : List Char) (c : Char) (hc : c ∈ l)
    (hp : jsIsSpace c = false) : c ∈ jsTrimL l := by
  unfold jsTrimL
  rw [List.mem_reverse]
  apply mem_dropWhile_of_not _ _ _ _ hp
  rw [List.mem_reverse]
  exact mem_dropWhile_of_not _ _ _ hc hp

theorem dropWhile_head_not (p : Char → Bool) :
    ∀ (l : List Char) (c : Char) (t : List Char), l.dropWhile p = c :: t →
      p c = false := by
  intro l
  induction l with
  | nil => intro c t h; cases h
  | cons a rest ih =>
      intro c t h
      rw [List.dropWhile_cons] at h
      by_cases ha : p a = true
      · rw [if_pos ha] at h
        exact ih c t h
      · rw [if_neg ha] at h
        injection h with h1 _
        rw [← h1]
        simpa using ha

theorem jsTrimL_prefix_dropWhile (l : List Char) :
    jsTrimL l <+: l.dropWhile jsIsSpace := by
  unfold jsTrimL
  apply List.reverse_suffix.mp
  rw [List.reverse_reverse]
  exact List.dropWhile_suffix _

theorem jsTrimL_head_not_space (l : List Char) (c : Char) (t : List Char)
    (h : jsTrimL l = c :: t) : jsIsSpace c = false := by
  obtain ⟨s, hs⟩ := jsTrimL_prefix_dropWhile l
  rw [h] at hs
  exact dropWhile_head_not jsIsSpace l c (t ++ s) (by rw [← hs]; simp)

theorem jsTrimL_last_not_space (l : List Char) (c : Char)
    (h : (jsTrimL l).getLast? = some c) : jsIsSpace c = false := by
  rw [← List.head?_reverse] at h
  unfold jsTrimL at h
  rw [List.reverse_reverse] at h
  obtain ⟨t, ht⟩ := List.head?_eq_some_iff.mp h
  exact dropWhile_head_not jsIsSpace _ c t ht

theorem jsTrimL_eq_self (l : List Char)
    (h1 : ∀ c ∈ l.head?, jsIsSpace c = false)
    (h2 : ∀ c ∈ l.getLast?, jsIsSpace c = false) : jsTrimL l = l := by
  unfold jsTrimL
  have hd : l.dropWhile jsIsSpace = l := by
    cases l with
    | nil => rfl
    | cons a rest =>
        rw [List.dropWhile_cons, if_neg]
        simp only [Bool.not_eq_true]
        exact h1 a (by simp)
  rw [hd]
  have hr : l.reverse.dropWhile jsIsSpace = l.reverse := by
    cases hrev : l.reverse with
    | nil => rfl
    | cons a rest =>
        rw [List.dropWhile_cons, if_neg]
        simp only [Bool.not_eq_true]
        apply h2 a
        rw [← List.head?_reverse, hrev]
        simp
  rw [hr, List.reverse_reverse]

theorem untrimmed_head_or_last (l : List Char) (h : jsTrimL l ≠ l) :
    (∃ c ∈ l.head?, jsIsSpace c = true) ∨ (∃ c ∈ l.getLast?, jsIsSpace c = true) := by
  by_contra hc
  push_neg at hc
  apply h
  apply jsTrimL_eq_self
  · intro c hch
    have := hc.1 c hch
    simpa using this
  · intro c hcl
    have := hc.2 c hcl
    simpa using this

theorem filter_allowed_head_ws (l : List Char) (c : Char) (hch : c ∈ l.head?)
    (hws : jsIsSpace c = true) : (l.filter allowedCalcChar).head? = some c := by
  cases l with
  | nil => cases hch
  | cons a rest =>
      have hac : a = c := by simpa using hch
      rw [List.filter_cons, if_pos]
      · simp [hac]
      · rw [hac]
        simp [allowedCalcChar, hws]

theorem filter_allowed_last_ws (l : List Char) (c : Char) (hcl : c ∈ l.getLast?)
    (hws : jsIsSpace c = true) : (l.filter allowedCalcChar).getLast? = some c := by
  rw [← List.head?_reverse, ← List.filter_reverse]
  apply filter_allowed_head_ws
  · rw [List.head?_reverse]
    exact hcl
  · exact hws

/-- C4 (amended).  `calculate` rejects with the fixed sanitize error exactly
when the input has a disallowed character or differs from its trimmed form
(leading/trailing whitespace), performing no evaluation; otherwise the
sanitized text (then equal to the input) is evaluated as a strict-mode JS
arithmetic expression and the numeric result is stringified; in particular
`calculate "2 * 3 + 4" = "10"` and `calculate "2; drop"` is the error
string. -/
theorem calculate_sanitize_spec :
    (∀ e : String,
      (String.mk (e.data.filter allowedCalcChar) ≠ jsTrim e ↔
        ((∃ c ∈ e.data, allowedCalcChar c = false) ∨ e ≠ jsTrim e))) ∧
    (∀ e : String, ((∃ c ∈ e.data, allowedCalcChar c = false) ∨ e ≠ jsTrim e) →
      calculate e = calcSanitizeError) ∧
    (∀ e : String, (∀ c ∈ e.data, allowedCalcChar c = true) → e = jsTrim e →
      calculate e =
        (match evalArith e with
         | Except.ok v => jsNumToString v
         | Except.error m => "Calculation error: " ++ m)) ∧
    calculate "2 * 3 + 4" = "10" ∧
    calculate "2; drop" = calcSanitizeError := by
  have hguard : ∀ e : String,
      (String.mk (e.data.filter allowedCalcChar) ≠ jsTrim e ↔
        ((∃ c ∈ e.data, allowedCalcChar c = false) ∨ e ≠ jsTrim e)) := by
    intro e
    constructor
    · intro h
      by_cases hall : ∀ c ∈ e.data, allowedCalcChar c = true
      · right
        intro he
        apply h
        rw [List.filter_eq_self.mpr hall, mk_data_eq]
        exact he
      · left
        push_neg at hall
        obtain ⟨c, hc, hnc⟩ := hall
        exact ⟨c, hc, by simpa using hnc⟩
    · intro h he
      have hdata : e.data.filter allowedCalcChar = jsTrimL e.data :=
        congrArg String.data he
      rcases h with ⟨c, hc, hnc⟩ | hne
      · have hns : jsIsSpace c = false := by
          by_contra hs
          simp only [Bool.not_eq_false] at hs
          simp [allowedCalcChar, hs] at hnc
        have hcn : c ∈ e.data.filter allowedCalcChar := by
          rw [hdata]
          exact mem_jsTrimL_of_not_space e.data c hc hns
        have := List.of_mem_filter hcn
        rw [hnc] at this
        cases this
      · have hne' : jsTrimL e.data ≠ e.data := by
          intro hx
          apply hne
          apply String.ext
          show e.data = (jsTrim e).data
          rw [show (jsTrim e).data = jsTrimL e.data from rfl, hx]
        rcases untrimmed_head_or_last e.data hne' with ⟨c, hch, hws⟩ | ⟨c, hcl, hws⟩
        · have h1 := filter_allowed_head_ws e.data c hch hws
          rw [hdata] at h1
          obtain ⟨t, ht⟩ := List.head?_eq_some_iff.mp h1
          rw [jsTrimL_head_not_space e.data c t ht] at hws
          cases hws
        · have h1 := filter_allowed_last_ws e.data c hcl hws
          rw [hdata] at h1
          rw [jsTrimL_last_not_space e.data c h1] at hws
          cases hws
  refine ⟨hguard, ?_, ?_, by decide, by decide⟩
  · intro e h
    unfold calculate
    rw [if_pos ((hguard e).mpr h)]
  · intro e hall he
    unfold calculate
    rw [if_neg (by
      rw [List.filter_eq_self.mpr hall, mk_data_eq]
      simp only [ne_eq, Decidable.not_not]
      exact he)]
    rw [List.filter_eq_self.mpr hall, mk_data_eq]

/-- Witness for C4 (amended): the rejection branch at an all-allowed but
untrimmed input and the evaluation branch at a proper expression. -/
theorem calculate_sanitize_spec_witness :
    calculate " 2+2" = calcSanitizeError ∧
    calculate "2+2" =
      (match evalArith "2+2" with
       | Except.ok v => jsNumToString v
       | Except.error m => "Calculation error: " ++ m) :=
  ⟨calculate_sanitize_spec.2.1 " 2+2" (Or.inr (by decide)),
   calculate_sanitize_spec.2.2.1 "2+2" (by decide) (by decide)⟩

/-! ### Helper lemmas for the unanimous-vote analysis -/

theorem objIncr_pos (l : List (String × Nat)) (k : String)
    (h : ∀ p ∈ l, 0 < p.2) : ∀ p ∈ objIncr l k, 0 < p.2 := by
  induction l with
  | nil =>
      intro p hp
      simp only [objIncr, List.mem_singleton] at hp
      simp [hp]
  | cons q rest ih =>
      obtain ⟨k', c⟩ := q
      intro p hp
      simp only [objIncr] at hp
      by_cases hk : k' = k
      · rw [if_pos hk] at hp
        rcases List.mem_cons.mp hp with h1 | h1
        · rw [h1]
          simp
        · exact h p (List.mem_cons.mpr (Or.inr h1))
      · rw [if_neg hk] at hp
        rcases List.mem_cons.mp hp with h1 | h1
        · exact h p (by simp [h1])
        · exact ih (fun q hq => h q (List.mem_cons.mpr (Or.inr hq))) p h1

theorem foldl_objIncr_pos (l : List String) :
    ∀ acc, (∀ p ∈ acc, 0 < p.2) →
      ∀ p ∈ l.foldl objIncr acc, 0 < p.2 := by
  induction l with
  | nil => intro acc h; exact h
  | cons x rest ih =>
      intro acc h
      simp only [List.foldl_cons]
      exact ih _ (objIncr_pos acc x h)

theorem tallyStr_pos (l : List String) : ∀ p ∈ tallyStr l, 0 < p.2 :=
  foldl_objIncr_pos l [] (by simp)

theorem objIncr_ne_nil (l : List (String × Nat)) (k : String) : objIncr l k ≠ [] := by
  cases l with
  | nil => simp [objIncr]
  | cons q rest =>
      obtain ⟨k', c⟩ := q
      simp only [objIncr]
      by_cases h : k' = k <;> simp [h]

theorem foldl_objIncr_ne_nil (l : List String) :
    ∀ acc, acc ≠ [] → l.foldl objIncr acc ≠ [] := by
  induction l with
  | nil => intro acc h; exact h
  | cons x rest ih =>
      intro acc _
      simp only [List.foldl_cons]
      exact ih _ (objIncr_ne_nil acc x)

theorem tallyStr_ne_nil (l : List String) (h : l ≠ []) : tallyStr l ≠ [] := by
  cases l with
  | nil => exact absurd rfl h
  | cons x rest =>
      show (x :: rest).foldl objIncr [] ≠ []
      simp only [List.foldl_cons]
      exact foldl_objIncr_ne_nil rest _ (objIncr_ne_nil [] x)

theorem argmax_fold_bound (L : List (String × Nat)) :
    ∀ st : Option String × Nat,
      st.2 ≤ (L.foldl
        (fun (st : Option String × Nat) kv =>
          if kv.2 > st.2 then (some kv.1, kv.2) else st) st).2 ∧
      ∀ p ∈ L, p.2 ≤ (L.foldl
        (fun (st : Option String × Nat) kv =>
          if kv.2 > st.2 then (some kv.1, kv.2) else st) st).2 := by
  induction L with
  | nil => intro st; simp
  | cons kv rest ih =>
      intro st
      simp only [List.foldl_cons]
      have hstep : st.2 ≤ (if kv.2 > st.2 then (some kv.1, kv.2) else st).2 := by
        by_cases h : kv.2 > st.2
        · rw [if_pos h]; exact Nat.le_of_lt h
        · rw [if_neg h]
      have hkv : kv.2 ≤ (if kv.2 > st.2 then (some kv.1, kv.2) else st).2 := by
        by_cases h : kv.2 > st.2
        · rw [if_pos h]
        · rw [if_neg h]; omega
      obtain ⟨h1, h2⟩ := ih (if kv.2 > st.2 then (some kv.1, kv.2) else st)
      refine ⟨le_trans hstep h1, ?_⟩
      intro p hp
      rcases List.mem_cons.mp hp with h | h
      · rw [h]; exact le_trans hkv h1
      · exact h2 p h

theorem argmax_fold_mem (L : List (String × Nat)) :
    ∀ st : Option String × Nat,
      (L.foldl (fun (st : Option String × Nat) kv =>
          if kv.2 > st.2 then (some kv.1, kv.2) else st) st) = st ∨
      ∃ d, (L.foldl (fun (st : Option String × Nat) kv =>
          if kv.2 > st.2 then (some kv.1, kv.2) else st) st).1 = some d ∧
        (d, (L.foldl (fun (st : Option String × Nat) kv =>
          if kv.2 > st.2 then (some kv.1, kv.2) else st) st).2) ∈ L := by
  induction L with
  | nil => intro st; exact Or.inl rfl
  | cons kv rest ih =>
      intro st
      simp only [List.foldl_cons]
      rcases ih (if kv.2 > st.2 then (some kv.1, kv.2) else st) with h | ⟨d, h1, h2⟩
      · by_cases hc : kv.2 > st.2
        · right
          refine ⟨kv.1, ?_, ?_⟩
          · rw [h, if_pos hc]
          · rw [h, if_pos hc]
            exact List.mem_cons.mpr (Or.inl (Prod.mk.eta).symm)
        · left
          rw [h, if_neg hc]
      · right
        exact ⟨d, h1, List.mem_cons.mpr (Or.inr h2)⟩

theorem displayOf_spec (l : List (String × Nat)) (hpos : ∀ p ∈ l, 0 < p.2)
    (hne : l ≠ []) :
    ∃ d c, displayOf l = some d ∧ (d, c) ∈ l ∧ ∀ p ∈ l, p.2 ≤ c := by
  unfold displayOf
  have hmeml : ∀ p : String × Nat, p ∈ jsKeysOrder l ↔ p ∈ l := jsKeysOrder_mem l
  have hb := argmax_fold_bound (jsKeysOrder l) (none, 0)
  rcases argmax_fold_mem (jsKeysOrder l) (none, 0) with h | ⟨d, h1, h2⟩
  · exfalso
    cases l with
    | nil => exact hne rfl
    | cons q rest =>
        have hq : q.2 ≤ 0 := by
          have := hb.2 q ((hmeml q).mpr (by simp))
          rw [h] at this
          exact this
        have := hpos q (by simp)
        omega
  · exact ⟨d, _, h1, (hmeml _).mp h2,
      fun p hp => hb.2 p ((hmeml p).mpr hp)⟩

theorem normGroups_same_key (k : String) :
    ∀ (entries : List (String × String)) (g : VGroup),
      (∀ e ∈ entries, entryKey e = k) →
      entries.foldl (fun gs e => addEntry gs (entryKey e) e.1) [(k, g)] =
        [(k, ⟨g.count + entries.length,
          entries.foldl (fun l e => objIncr l e.1) g.originals⟩)] := by
  intro entries
  induction entries with
  | nil => intro g _; simp
  | cons e rest ih =>
      intro g hall
      have hk := hall e (List.mem_cons.mpr (Or.inl rfl))
      simp only [List.foldl_cons, hk]
      have hstep : addEntry [(k, g)] k e.1 =
          [(k, ⟨g.count + 1, objIncr g.originals e.1⟩)] := by
        simp [addEntry]
      rw [hstep, ih _ (fun x hx => hall x (List.mem_cons.mpr (Or.inr hx)))]
      have hcnt : g.count + 1 + rest.length = g.count + (e :: rest).length := by
        simp
        omega
      rw [hcnt]

theorem filterMap_id_length_of_all_some (answers : List (Option String)) :
    (∀ x ∈ answers, x.isSome) → (answers.filterMap id).length = answers.length := by
  induction answers with
  | nil => intro _; rfl
  | cons x rest ih =>
      intro hall
      obtain ⟨a, ha⟩ := Option.isSome_iff_exists.mp (hall x (by simp))
      rw [ha]
      simp only [List.filterMap_cons, id]
      rw [List.length_cons, List.length_cons, ih (fun y hy => hall y (by simp [hy]))]

theorem jsKeysOrder_nil : jsKeysOrder ([] : List (String × α)) = [] := rfl

theorem jsKeysOrder_singleton (kv : String × α) : jsKeysOrder [kv] = [kv] := by
  unfold jsKeysOrder
  cases h : isCanonicalIndex kv.1 with
  | none => simp [h]
  | some n => simp [h, insAsc]

theorem sortedGroups_singleton (kv : String × VGroup) : sortedGroups [kv] = [kv] := by
  unfold sortedGroups
  rw [jsKeysOrder_singleton]
  simp [insDescBy]

theorem mergeGroups_singleton (kv : String × VGroup) : mergeGroups [kv] = [kv] := by
  unfold mergeGroups
  rw [sortedGroups_singleton]
  simp [mergeInto, findCanon, jsKeysOrder_nil]

theorem buildVoteResult_singleton (k : String) (g : VGroup) (cu : Bool)
    (h : 0 < g.count) :
    (buildVoteResult [(k, g)] cu).answer = displayOf g.originals ∧
    (buildVoteResult [(k, g)] cu).count = g.count := by
  unfold buildVoteResult
  rw [jsKeysOrder_singleton]
  simp [h]

/-- `smartMajorityVote` reduced at a single merged group. -/
theorem smartMajorityVote_single (answers : List (Option String)) (apiKey : Bool)
    (canonReply : Option String) (kk : String) (gg : VGroup)
    (hne : (answers.filterMap id).isEmpty = false)
    (hmerged : mergeGroups (normGroupsOf ((answers.filterMap id).map
      (fun a => (jsLower (jsTrim a), basicNormalize a)))) = [(kk, gg)]) :
    smartMajorityVote answers apiKey canonReply = buildVoteResult [(kk, gg)] false := by
  unfold smartMajorityVote
  simp only [hne, Bool.false_eq_true, if_false, hmerged]
  rw [if_neg (by simp)]

/-- C3 (counterexample).  Two extracted answers `"!!"` and `"??"` share the
same (empty) normalized form, yet the run's confidence is 1/2, not 1.0: an
empty normalization falls back to grouping by the original strings. -/
theorem runCoT_confidence_cex :
    extractAnswer "The answer is !!" = some "!!" ∧
    extractAnswer "The answer is ??" = some "??" ∧
    basicNormalize "!!" = basicNormalize "??" ∧
    (runCoT (fun i => if i = 0 then "The answer is !!" else "The answer is ??") 2
        QType.factual false none "").confidence = some ((1 : ℚ) / 2) ∧
    (runCoT (fun i => if i = 0 then "The answer is !!" else "The answer is ??") 2
        QType.factual false none "").confidence ≠ some 1 := by
  have hcount : (smartMajorityVote
      ((((List.range 2).map (fun i =>
        if i = 0 then "The answer is !!" else "The answer is ??")).map extractAnswer))
      false none).count = 1 := by decide
  have hvalid : (((((List.range 2).map (fun i =>
      if i = 0 then "The answer is !!" else "The answer is ??")).map
        extractAnswer)).filter (fun a => a.isSome)).length = 2 := by decide
  have hconf : (runCoT (fun i => if i = 0 then "The answer is !!"
      else "The answer is ??") 2 QType.factual false none "").confidence
      = some ((1 : ℚ) / 2) := by
    unfold runCoT
    simp only [hcount, hvalid]
    norm_num
  refine ⟨by decide, by decide, by decide, hconf, ?_⟩
  rw [hconf]
  intro h
  have := Option.some.inj h
  norm_num at this

/-- C3 (amended).  If every one of the `N ≥ 1` sampled paths yields an
extractable answer and all answers share the same *non-empty* normalized
form, then the factual-branch confidence is exactly 1.0 and the final answer
is a most frequent original (trimmed, lowercased) form of the unanimous
group. -/
theorem runCoT_unanimous_confidence (script : Nat → String) (nSamples : Nat)
    (apiKey : Bool) (canonReply : Option String) (synthReply : String) (k : String)
    (hN : 1 ≤ nSamples) (hk : k ≠ "")
    (hext : ∀ i < nSamples, ∃ a, extractAnswer (script i) = some a ∧
      basicNormalize a = k) :
    (runCoT script nSamples QType.factual apiKey canonReply synthReply).confidence
      = some 1 ∧
    ∃ d c,
      (runCoT script nSamples QType.factual apiKey canonReply
        synthReply).finalAnswer = some d ∧
      (d, c) ∈ tallyStr (((((List.range nSamples).map script).map
        extractAnswer).filterMap id).map (fun a => jsLower (jsTrim a))) ∧
      ∀ p ∈ tallyStr (((((List.range nSamples).map script).map
        extractAnswer).filterMap id).map (fun a => jsLower (jsTrim a))),
        p.2 ≤ c := by
  have hallsome : ∀ x ∈ ((List.range nSamples).map script).map extractAnswer,
      x.isSome := by
    intro x hx
    obtain ⟨y, hy, hxy⟩ := List.mem_map.mp hx
    obtain ⟨i, hi, hyi⟩ := List.mem_map.mp hy
    obtain ⟨a, ha, -⟩ := hext i (List.mem_range.mp hi)
    rw [← hxy, ← hyi, ha]
    rfl
  have hallnorm : ∀ x ∈ ((List.range nSamples).map script).map extractAnswer,
      ∃ a, x = some a ∧ basicNormalize a = k := by
    intro x hx
    obtain ⟨y, hy, hxy⟩ := List.mem_map.mp hx
    obtain ⟨i, hi, hyi⟩ := List.mem_map.mp hy
    obtain ⟨a, ha, hna⟩ := hext i (List.mem_range.mp hi)
    exact ⟨a, by rw [← hxy, ← hyi, ha], hna⟩
  have hvlen : ((((List.range nSamples).map script).map
      extractAnswer).filterMap id).length = nSamples := by
    rw [filterMap_id_length_of_all_some _ hallsome]
    simp
  have hvne : (((List.range nSamples).map script).map
      extractAnswer).filterMap id ≠ [] := by
    intro h
    rw [h] at hvlen
    simp at hvlen
    omega
  have hie : ((((List.range nSamples).map script).map
      extractAnswer).filterMap id).isEmpty = false := by
    cases h2 : (((List.range nSamples).map script).map extractAnswer).filterMap id with
    | nil => exact absurd h2 hvne
    | cons _ _ => rfl
  have hvnorm : ∀ a ∈ (((List.range nSamples).map script).map
      extractAnswer).filterMap id, basicNormalize a = k := by
    intro a ha
    obtain ⟨x, hx, hxa⟩ := List.mem_filterMap.mp ha
    obtain ⟨b, hb, hnb⟩ := hallnorm x hx
    simp only [id] at hxa
    rw [hb] at hxa
    rw [(Option.some.inj hxa).symm]
    exact hnb
  have horigs : (((((List.range nSamples).map script).map
        extractAnswer).filterMap id).map
          (fun a => (jsLower (jsTrim a), basicNormalize a))).map Prod.fst =
      ((((List.range nSamples).map script).map extractAnswer).filterMap id).map
        (fun a => jsLower (jsTrim a)) := by
    rw [List.map_map]
    rfl
  have horigsne : ((((List.range nSamples).map script).map
      extractAnswer).filterMap id).map (fun a => jsLower (jsTrim a)) ≠ [] := by
    intro h
    apply hvne
    have := congrArg List.length h
    simp only [List.length_map, List.length_nil] at this
    exact List.eq_nil_of_length_eq_zero this
  cases hE : ((((List.range nSamples).map script).map extractAnswer).filterMap id).map
      (fun a => (jsLower (jsTrim a), basicNormalize a)) with
  | nil =>
      exfalso
      apply hvne
      have := congrArg List.length hE
      simp only [List.length_map, List.length_nil] at this
      exact List.eq_nil_of_length_eq_zero this
  | cons e0 rest =>
      have hekeys : ∀ e ∈ e0 :: rest, entryKey e = k := by
        rw [← hE]
        intro e he
        obtain ⟨a, ha, hfe⟩ := List.mem_map.mp he
        rw [← hfe]
        unfold entryKey
        simp only
        rw [hvnorm a ha, if_neg hk]
      have hkeys_rest : ∀ e ∈ rest, entryKey e = k :=
        fun e he => hekeys e (List.mem_cons.mpr (Or.inr he))
      have hek0 : entryKey e0 = k := hekeys e0 (List.mem_cons.mpr (Or.inl rfl))
      have hng : normGroupsOf (e0 :: rest) =
          [(k, ⟨1 + rest.length,
            rest.foldl (fun l e => objIncr l e.1) [(e0.1, 1)]⟩)] := by
        unfold normGroupsOf
        simp only [List.foldl_cons, hek0]
        have h0 : addEntry [] k e0.1 = [(k, ⟨1, [(e0.1, 1)]⟩)] := rfl
        rw [h0, normGroups_same_key k rest _ hkeys_rest]
      have htally : rest.foldl (fun l e => objIncr l e.1) [(e0.1, 1)] =
          tallyStr (((((List.range nSamples).map script).map
            extractAnswer).filterMap id).map (fun a => jsLower (jsTrim a))) := by
        rw [← horigs, hE]
        show _ = tallyStr (e0.1 :: rest.map Prod.fst)
        unfold tallyStr
        simp only [List.foldl_cons]
        rw [List.foldl_map]
        rfl
      have hcnt1 : 1 + rest.length = nSamples := by
        have := congrArg List.length hE
        simp only [List.length_map, List.length_cons] at this
        rw [hvlen] at this
        omega
      have hmerged : mergeGroups (normGroupsOf
          (((((List.range nSamples).map script).map extractAnswer).filterMap id).map
            (fun a => (jsLower (jsTrim a), basicNormalize a)))) =
          [(k, ⟨1 + rest.length,
            rest.foldl (fun l e => objIncr l e.1) [(e0.1, 1)]⟩)] := by
        rw [hE, hng, mergeGroups_singleton]
      have hsv := smartMajorityVote_single
        (((List.range nSamples).map script).map extractAnswer) apiKey canonReply
        k ⟨1 + rest.length, rest.foldl (fun l e => objIncr l e.1) [(e0.1, 1)]⟩
        hie hmerged
      have hbv := buildVoteResult_singleton k
        ⟨1 + rest.length, rest.foldl (fun l e => objIncr l e.1) [(e0.1, 1)]⟩ false
        (by simp)
      have hcount : (smartMajorityVote
          (((List.range nSamples).map script).map extractAnswer) apiKey
          canonReply).count = nSamples := by
        rw [hsv, hbv.2]
        exact hcnt1
      obtain ⟨d, c, hdisp, hdc, hmax⟩ := displayOf_spec
        (tallyStr (((((List.range nSamples).map script).map
          extractAnswer).filterMap id).map (fun a => jsLower (jsTrim a))))
        (tallyStr_pos _) (tallyStr_ne_nil _ horigsne)
      have hanswer : (smartMajorityVote
          (((List.range nSamples).map script).map extractAnswer) apiKey
          canonReply).answer = some d := by
        rw [hsv, hbv.1]
        show displayOf (rest.foldl (fun l e => objIncr l e.1) [(e0.1, 1)]) = some d
        rw [htally]
        exact hdisp
      have hfiltlen : ((((List.range nSamples).map script).map
          extractAnswer).filter (fun a => a.isSome)).length = nSamples := by
        rw [List.filter_eq_self.mpr hallsome]
        simp
      have hNpos : ((((List.range nSamples).map script).map
          extractAnswer).filter (fun a => a.isSome)).length > 0 := by
        rw [hfiltlen]; omega
      refine ⟨?_, d, c, ?_, hdc, hmax⟩
      · have hrfl : (runCoT script nSamples QType.factual apiKey canonReply
            synthReply).confidence =
            some (if ((((List.range nSamples).map script).map
                extractAnswer).filter (fun a => a.isSome)).length > 0
              then ((smartMajorityVote (((List.range nSamples).map script).map
                extractAnswer) apiKey canonReply).count : ℚ) / (nSamples : ℚ)
              else 0) := rfl
        rw [hrfl, if_pos hNpos, hcount, div_self]
        exact Nat.cast_ne_zero.mpr (by omega)
      · have hrfl : (runCoT script nSamples QType.factual apiKey canonReply
            synthReply).finalAnswer =
            (if ((((List.range nSamples).map script).map
                extractAnswer).filter (fun a => a.isSome)).length > 0
              then (smartMajorityVote (((List.range nSamples).map script).map
                extractAnswer) apiKey canonReply).answer
              else some extractionFailedPlaceholder) := rfl
        rw [hrfl, if_pos hNpos, hanswer]

/-- Witness for C3 (amended) at three unanimous samples. -/
theorem runCoT_unanimous_confidence_witness :
    (runCoT (fun _ => "The answer is 7.") 3 QType.factual false none "").confidence
      = some 1 ∧
    ∃ d c,
      (runCoT (fun _ => "The answer is 7.") 3 QType.factual false none "").finalAnswer
        = some d ∧
      (d, c) ∈ tallyStr (((((List.range 3).map (fun _ => "The answer is 7.")).map
        extractAnswer).filterMap id).map (fun a => jsLower (jsTrim a))) ∧
      ∀ p ∈ tallyStr (((((List.range 3).map (fun _ => "The answer is 7.")).map
        extractAnswer).filterMap id).map (fun a => jsLower (jsTrim a))),
        p.2 ≤ c :=
  runCoT_unanimous_confidence (fun _ => "The answer is 7.") 3 false none "" "7"
    (by omega) (by decide)
    (fun _ _ => ⟨"7", by
      show extractAnswer "The answer is 7." = some "7"
      decide, by decide⟩)

end S2P
